import Mathlib

/-!
# UniquePtr and SharedPtr (ConsoleApplication21.cpp)

A shallow embedding of the two owner classes of `ConsoleApplication21.cpp`.

* A raw pointer (`T*` or `int*`) is a natural number, `0` being `nullptr`.
* Every C++ object of class `UniquePtr` or `SharedPtr` lives in a slot of a store;
  the slot index is the identity of the object, so `this != &other` is `i ≠ j`.
  A slot holding `none` is an object whose destructor has run.
* `delete` is recorded in an ordered log of frees; `delete nullptr` does nothing.
* `new int(1)` hands out the address after the last one handed out (never `0`, never an
  address handed out before).
* The cell behind `refCount` is a 32-bit `int`. The increment `(*refCount)++` wraps at
  `INT_MAX = 2147483647` to `INT_MIN = -2147483648`, which is what the compiled program does;
  the reachability relation admits a copy only where that increment does not overflow.
  The decrement `(*refCount)--` subtracts 1: it leaves the range of `int` only from `INT_MIN`,
  which a counter holds only after an overflowing increment.
-/

/-! ## UniquePtr -/

/-- The class `UniquePtr<T>`: its only field is `T* ptr`. -/
structure UniquePtr where
  ptr : Nat
deriving DecidableEq

/-- The store of `UniquePtr` objects together with the log of `delete ptr` calls. -/
structure UState where
  objs : List (Option UniquePtr)
  freed : List Nat
deriving DecidableEq

/-- The statement `delete p` on a `T*`: a no-op on `nullptr`, otherwise one more free. -/
def deleteObj (p : Nat) (freed : List Nat) : List Nat :=
  if p = 0 then freed else freed ++ [p]

/-- The state before any object exists. -/
def UState.init : UState := ⟨[], []⟩

/-- The object in slot `i` is alive and equals `u`. -/
@[reducible] def UState.live (w : UState) (i : Nat) (u : UniquePtr) : Prop :=
  w.objs[i]? = some (some u)

instance (w : UState) (i : Nat) (u : UniquePtr) : Decidable (w.live i u) := by
  unfold UState.live; infer_instance

namespace UniquePtr

/-- The accessor `T* get() const { return ptr; }`. -/
def get (self : UniquePtr) : Nat := self.ptr

/-- The constructor `explicit UniquePtr(T* p = nullptr) : ptr(p) {}`; the new object takes the next
slot. -/
def ctor (w : UState) (p : Nat) : UState :=
  { w with objs := w.objs ++ [some ⟨p⟩] }

/-- The destructor `~UniquePtr() { delete ptr; }` run on the object in slot `i`. -/
def dtor (w : UState) (i : Nat) : UState :=
  match w.objs[i]? with
  | some (some u) => { objs := w.objs.set i none, freed := deleteObj u.ptr w.freed }
  | _ => w

/-- The move constructor `UniquePtr(UniquePtr&& other) : ptr(other.ptr) { other.ptr = nullptr; }`
with `other` in slot `j`; the new object takes the next slot. -/
def moveCtor (w : UState) (j : Nat) : UState :=
  match w.objs[j]? with
  | some (some o) => { w with objs := (w.objs.set j (some ⟨0⟩)) ++ [some ⟨o.ptr⟩] }
  | _ => w

/-- The move assignment `operator=(UniquePtr&& other)` with `this` in slot `i`, `other` in slot `j`:
`if (this != &other) { delete ptr; ptr = other.ptr; other.ptr = nullptr; }`. -/
def moveAssign (w : UState) (i j : Nat) : UState :=
  if i ≠ j then
    match w.objs[i]?, w.objs[j]? with
    | some (some d), some (some o) =>
        { objs := (w.objs.set i (some ⟨o.ptr⟩)).set j (some ⟨0⟩),
          freed := deleteObj d.ptr w.freed }
    | _, _ => w
  else w

/-- The member `T* release() { T* temp = ptr; ptr = nullptr; return temp; }` on slot `i`: the
returned pointer and the new state. -/
def release (w : UState) (i : Nat) : Nat × UState :=
  match w.objs[i]? with
  | some (some u) => (u.ptr, { w with objs := w.objs.set i (some ⟨0⟩) })
  | _ => (0, w)

/-- The member `void reset(T* p = nullptr) { delete ptr; ptr = p; }` on slot `i`. -/
def reset (w : UState) (i : Nat) (p : Nat) : UState :=
  match w.objs[i]? with
  | some (some u) => { objs := w.objs.set i (some ⟨p⟩), freed := deleteObj u.ptr w.freed }
  | _ => w

end UniquePtr

/-- A raw pointer a caller may hand to the constructor or to `reset`: null, or an allocation that
has not been freed and that no live owner holds. -/
def UState.rawOk (w : UState) (p : Nat) : Prop :=
  p = 0 ∨ (p ∉ w.freed ∧ ∀ j u, w.live j u → u.ptr ≠ p)

/-- States reachable by the operations of `UniquePtr` on live objects. -/
inductive UReachable : UState → Prop
  | init : UReachable UState.init
  | ctor (w : UState) (p : Nat) : UReachable w → w.rawOk p → UReachable (UniquePtr.ctor w p)
  | dtor (w : UState) (i : Nat) (u : UniquePtr) :
      UReachable w → w.live i u → UReachable (UniquePtr.dtor w i)
  | moveCtor (w : UState) (j : Nat) (o : UniquePtr) :
      UReachable w → w.live j o → UReachable (UniquePtr.moveCtor w j)
  | moveAssign (w : UState) (i j : Nat) (d o : UniquePtr) :
      UReachable w → w.live i d → w.live j o → UReachable (UniquePtr.moveAssign w i j)
  | release (w : UState) (i : Nat) (u : UniquePtr) :
      UReachable w → w.live i u → UReachable (UniquePtr.release w i).2
  | reset (w : UState) (i : Nat) (u : UniquePtr) (p : Nat) :
      UReachable w → w.live i u → w.rawOk p → UReachable (UniquePtr.reset w i p)

/-! ## SharedPtr -/

/-- One `delete` performed by `SharedPtr::release`: of the value (`delete ptr`) or of the counter
(`delete refCount`). -/
inductive Free where
  | obj (p : Nat)
  | cnt (c : Nat)
deriving DecidableEq

/-- The class `SharedPtr<T>`: fields `T* ptr` and `int* refCount`. -/
structure SharedPtr where
  ptr : Nat
  refCount : Nat
deriving DecidableEq

/-- The store of `SharedPtr` objects, the contents of the `int` cells, the number of `int` cells
handed out by `new int` so far, and the log of deletes. -/
structure SState where
  objs : List (Option SharedPtr)
  ints : Nat → Int
  allocs : Nat
  freed : List Free

/-- Writing `v` to the `int` cell at address `a`. -/
def setInt (m : Nat → Int) (a : Nat) (v : Int) : Nat → Int :=
  fun b => if b = a then v else m b

/-- The value a 32-bit `int` holds after an arithmetic result `x`: `x` itself inside
`[-2147483648, 2147483647]`, wrapped around outside. -/
def wrapInt (x : Int) : Int :=
  (x + 2147483648) % 4294967296 - 2147483648

/-- The statement `delete p` on the value pointer: a no-op on `nullptr`. -/
def deleteVal (p : Nat) (freed : List Free) : List Free :=
  if p = 0 then freed else freed ++ [Free.obj p]

/-- The state before any object exists. -/
def SState.init : SState := ⟨[], fun _ => 0, 0, []⟩

/-- The object in slot `i` is alive and equals `s`. -/
@[reducible] def SState.live (w : SState) (i : Nat) (s : SharedPtr) : Prop :=
  w.objs[i]? = some (some s)

instance (w : SState) (i : Nat) (s : SharedPtr) : Decidable (w.live i s) := by
  unfold SState.live; infer_instance

/-- Whether a slot holds a live object whose `refCount` is the address `c`. -/
def refP (c : Nat) (o : Option SharedPtr) : Bool :=
  match o with
  | some s => decide (s.refCount = c)
  | none => false

/-- The number of live `SharedPtr` objects whose `refCount` is the address `c`. -/
def SState.refs (w : SState) (c : Nat) : Nat :=
  w.objs.countP (refP c)

namespace SharedPtr

/-- The private member `release()`:
`if (refCount) { (*refCount)--; if (*refCount == 0) { delete ptr; delete refCount; } }`.
It changes the heap only; the fields of the object stay as they are. -/
def release (self : SharedPtr) (w : SState) : SState :=
  if self.refCount ≠ 0 then
    let w1 := { w with ints := setInt w.ints self.refCount (w.ints self.refCount - 1) }
    if w1.ints self.refCount = 0 then
      { w1 with freed := deleteVal self.ptr w1.freed ++ [Free.cnt self.refCount] }
    else w1
  else w

/-- The accessor `T* get() const { return ptr; }`. -/
def get (self : SharedPtr) : Nat := self.ptr

/-- The accessor `int use_count() const { return refCount ? *refCount : 0; }`. -/
def use_count (self : SharedPtr) (w : SState) : Int :=
  if self.refCount ≠ 0 then w.ints self.refCount else 0

/-- The constructor `explicit SharedPtr(T* p = nullptr) : ptr(p), refCount(p ? new int(1) : nullptr)`;
the new object takes the next slot. -/
def ctor (w : SState) (p : Nat) : SState :=
  if p ≠ 0 then
    { objs := w.objs ++ [some ⟨p, w.allocs + 1⟩],
      ints := setInt w.ints (w.allocs + 1) 1,
      allocs := w.allocs + 1,
      freed := w.freed }
  else { w with objs := w.objs ++ [some ⟨p, 0⟩] }

/-- The destructor `~SharedPtr() { release(); }` run on the object in slot `i`. -/
def dtor (w : SState) (i : Nat) : SState :=
  match w.objs[i]? with
  | some (some s) => { s.release w with objs := w.objs.set i none }
  | _ => w

/-- The copy constructor `SharedPtr(const SharedPtr& other) : ptr(other.ptr),
refCount(other.refCount) { if (refCount) (*refCount)++; }` with `other` in slot `j`; the increment
is that of a 32-bit `int`. -/
def copyCtor (w : SState) (j : Nat) : SState :=
  match w.objs[j]? with
  | some (some o) =>
      let w1 := { w with objs := w.objs ++ [some ⟨o.ptr, o.refCount⟩] }
      if o.refCount ≠ 0 then
        { w1 with ints := setInt w1.ints o.refCount (wrapInt (w1.ints o.refCount + 1)) }
      else w1
  | _ => w

/-- The copy assignment `operator=(const SharedPtr& other)` with `this` in slot `i` and `other` in
slot `j`: `if (this != &other) { release(); ptr = other.ptr; refCount = other.refCount;
if (refCount) (*refCount)++; }`; the increment is that of a 32-bit `int`. -/
def copyAssign (w : SState) (i j : Nat) : SState :=
  if i ≠ j then
    match w.objs[i]?, w.objs[j]? with
    | some (some d), some (some o) =>
        let w1 := d.release w
        let w2 := { w1 with objs := w1.objs.set i (some ⟨o.ptr, o.refCount⟩) }
        if o.refCount ≠ 0 then
          { w2 with ints := setInt w2.ints o.refCount (wrapInt (w2.ints o.refCount + 1)) }
        else w2
    | _, _ => w
  else w

/-- The move constructor `SharedPtr(SharedPtr&& other) : ptr(other.ptr), refCount(other.refCount)
{ other.ptr = nullptr; other.refCount = nullptr; }` with `other` in slot `j`. -/
def moveCtor (w : SState) (j : Nat) : SState :=
  match w.objs[j]? with
  | some (some o) =>
      { w with objs := (w.objs.set j (some ⟨0, 0⟩)) ++ [some ⟨o.ptr, o.refCount⟩] }
  | _ => w

/-- The move assignment `operator=(SharedPtr&& other)` with `this` in slot `i` and `other` in slot
`j`: `if (this != &other) { release(); ptr = other.ptr; refCount = other.refCount;
other.ptr = nullptr; other.refCount = nullptr; }`. -/
def moveAssign (w : SState) (i j : Nat) : SState :=
  if i ≠ j then
    match w.objs[i]?, w.objs[j]? with
    | some (some d), some (some o) =>
        let w1 := d.release w
        { w1 with objs := (w1.objs.set i (some ⟨o.ptr, o.refCount⟩)).set j (some ⟨0, 0⟩) }
    | _, _ => w
  else w

end SharedPtr

/-- A fresh allocation handed to the `SharedPtr` constructor: non-null, never freed, and held by
no live owner. -/
def SState.fresh (w : SState) (p : Nat) : Prop :=
  p ≠ 0 ∧ Free.obj p ∉ w.freed ∧ ∀ j s, w.live j s → s.ptr ≠ p

/-- States reachable by the operations of `SharedPtr` on live objects, where the constructor gets
`nullptr` or a fresh allocation and a copy is taken only where its increment acts on a counter
below `INT_MAX`, so that no `int` overflows. -/
inductive SReachable : SState → Prop
  | init : SReachable SState.init
  | ctor (w : SState) (p : Nat) : SReachable w → (p = 0 ∨ w.fresh p) →
      SReachable (SharedPtr.ctor w p)
  | dtor (w : SState) (i : Nat) (s : SharedPtr) :
      SReachable w → w.live i s → SReachable (SharedPtr.dtor w i)
  | copyCtor (w : SState) (j : Nat) (o : SharedPtr) :
      SReachable w → w.live j o → (o.refCount ≠ 0 → w.ints o.refCount < 2147483647) →
      SReachable (SharedPtr.copyCtor w j)
  | copyAssign (w : SState) (i j : Nat) (d o : SharedPtr) :
      SReachable w → w.live i d → w.live j o →
      (i ≠ j → o.refCount ≠ 0 → (d.release w).ints o.refCount < 2147483647) →
      SReachable (SharedPtr.copyAssign w i j)
  | moveCtor (w : SState) (j : Nat) (o : SharedPtr) :
      SReachable w → w.live j o → SReachable (SharedPtr.moveCtor w j)
  | moveAssign (w : SState) (i j : Nat) (d o : SharedPtr) :
      SReachable w → w.live i d → w.live j o → SReachable (SharedPtr.moveAssign w i j)

/-- The scenario of `main`, lines 143 to 154: `sp1(new Test(20))`, `sp2 = sp1` (copy),
`sp3 = std::move(sp1)`, then the scope ends and `sp3`, `sp2`, `sp1` are destroyed in that order.
The allocation of `new Test(20)` is the address `20`. -/
def mainShared : SState :=
  let w1 := SharedPtr.ctor SState.init 20
  let w2 := SharedPtr.copyCtor w1 0
  let w3 := SharedPtr.moveCtor w2 0
  let w4 := SharedPtr.dtor w3 2
  let w5 := SharedPtr.dtor w4 1
  SharedPtr.dtor w5 0

/-! ## Invariants and scenarios -/

/-- No allocation has two live owners, and no live owner holds a freed allocation. -/
def UState.inv (w : UState) : Prop :=
  (∀ i j u v, i ≠ j → w.live i u → w.live j v → u.ptr = v.ptr → u.ptr = 0) ∧
  (∀ i u, w.live i u → u.ptr ≠ 0 → u.ptr ∉ w.freed)

/-- The counting invariant: an allocated counter that has not been freed holds the number of
live owners whose `refCount` is its address; no live owner refers to an unallocated or freed
counter; only allocated counters have been freed. -/
def SState.inv (w : SState) : Prop :=
  (∀ c, 1 ≤ c → c ≤ w.allocs → Free.cnt c ∉ w.freed → w.ints c = (w.refs c : Int)) ∧
  (∀ c, 1 ≤ c → (w.allocs < c ∨ Free.cnt c ∈ w.freed) → w.refs c = 0) ∧
  (∀ c, Free.cnt c ∈ w.freed → 1 ≤ c ∧ c ≤ w.allocs)

/-- The state after `n` copy constructions from the object in slot 0. -/
def copies (w : SState) : Nat → SState
  | 0 => w
  | n + 1 => SharedPtr.copyCtor (copies w n) 0

/-- The scenario of `main`, lines 131 to 134, started in any state `w` with any allocation `v`:
`up1(v)` takes the slot `w.objs.length`, then `up2 = std::move(up1)` takes the next slot. -/
def twoOwners (w : UState) (v : Nat) : UState :=
  UniquePtr.moveCtor (UniquePtr.ctor w v) w.objs.length

theorem mem_deleteObj (x p : Nat) (f : List Nat) :
    x ∈ deleteObj p f ↔ x ∈ f ∨ (p ≠ 0 ∧ x = p) := by
  unfold deleteObj
  split <;> simp_all

theorem lookup_lt {α : Type} (l : List α) (k : Nat) (y : α) (h : l[k]? = some y) :
    k < l.length := by
  by_contra hc
  rw [List.getElem?_eq_none (by omega)] at h
  cases h

theorem lookup_push {α : Type} (l : List (Option α)) (x : Option α) (k : Nat) (u : α) :
    (l ++ [x])[k]? = some (some u) ↔ l[k]? = some (some u) ∨ (k = l.length ∧ x = some u) := by
  simp only [List.getElem?_append]
  by_cases h : k < l.length
  · simp [h]; omega
  · simp only [h, if_false]
    have h1 : l[k]? = none := List.getElem?_eq_none (by omega)
    by_cases h2 : k = l.length
    · subst h2; simp
    · cases hk : k - l.length with
      | zero => omega
      | succ n => simp [h1, h2]

theorem lookup_set {α : Type} (l : List (Option α)) (i k : Nat) (x : Option α) (u : α)
    (hi : i < l.length) :
    (l.set i x)[k]? = some (some u) ↔ (k = i ∧ x = some u) ∨ (k ≠ i ∧ l[k]? = some (some u)) := by
  simp only [List.getElem?_set]
  by_cases h : i = k
  · subst h; simp [hi]
  · have h2 : ¬ k = i := fun e => h e.symm
    simp [h, h2]

/-! ## The ownership invariant of UniquePtr -/

theorem UState_inv_init : UState.init.inv := by
  constructor
  · intro i j u v _ h
    simp [UState.live, UState.init] at h
  · intro i u h
    simp [UState.live, UState.init] at h

theorem UState_inv_ctor (w : UState) (p : Nat) (hw : w.inv) (hp : w.rawOk p) :
    (UniquePtr.ctor w p).inv := by
  obtain ⟨h1, h2⟩ := hw
  have hl : ∀ k u, (UniquePtr.ctor w p).live k u ↔
      w.live k u ∨ (k = w.objs.length ∧ u = ⟨p⟩) := by
    intro k u
    simp only [UState.live, UniquePtr.ctor, lookup_push, Option.some.injEq]
    constructor <;> rintro (h | ⟨a, b⟩)
    · exact Or.inl h
    · exact Or.inr ⟨a, b.symm⟩
    · exact Or.inl h
    · exact Or.inr ⟨a, b.symm⟩
  constructor
  · intro i j u v hij hi hj he
    rw [hl] at hi hj
    rcases hi with hi | ⟨hi, rfl⟩ <;> rcases hj with hj | ⟨hj, rfl⟩
    · exact h1 i j u v hij hi hj he
    · rcases hp with hp | ⟨_, hp⟩
      · simpa [hp] using he
      · exact absurd he (hp i u hi)
    · rcases hp with hp | ⟨_, hp⟩
      · simp [hp]
      · exact absurd he.symm (hp j v hj)
    · omega
  · intro i u hi hne
    rw [hl] at hi
    have hf : (UniquePtr.ctor w p).freed = w.freed := rfl
    rw [hf]
    rcases hi with hi | ⟨_, rfl⟩
    · exact h2 i u hi hne
    · rcases hp with hp | ⟨hp, _⟩
      · exact absurd hp hne
      · exact hp

theorem UniquePtr_dtor_eq (w : UState) (i : Nat) (u : UniquePtr) (h : w.live i u) :
    UniquePtr.dtor w i = ⟨w.objs.set i none, deleteObj u.ptr w.freed⟩ := by
  unfold UState.live at h
  simp [UniquePtr.dtor, h]

theorem UniquePtr_moveCtor_eq (w : UState) (j : Nat) (o : UniquePtr) (h : w.live j o) :
    UniquePtr.moveCtor w j = ⟨(w.objs.set j (some ⟨0⟩)) ++ [some ⟨o.ptr⟩], w.freed⟩ := by
  unfold UState.live at h
  simp [UniquePtr.moveCtor, h]

theorem UniquePtr_moveAssign_eq (w : UState) (i j : Nat) (d o : UniquePtr) (hij : i ≠ j)
    (hi : w.live i d) (hj : w.live j o) :
    UniquePtr.moveAssign w i j =
      ⟨(w.objs.set i (some ⟨o.ptr⟩)).set j (some ⟨0⟩), deleteObj d.ptr w.freed⟩ := by
  unfold UState.live at hi hj
  simp [UniquePtr.moveAssign, hi, hj, hij]

theorem UniquePtr_release_eq (w : UState) (i : Nat) (u : UniquePtr) (h : w.live i u) :
    UniquePtr.release w i = (u.ptr, ⟨w.objs.set i (some ⟨0⟩), w.freed⟩) := by
  unfold UState.live at h
  simp [UniquePtr.release, h]

theorem UniquePtr_reset_eq (w : UState) (i : Nat) (u : UniquePtr) (p : Nat) (h : w.live i u) :
    UniquePtr.reset w i p = ⟨w.objs.set i (some ⟨p⟩), deleteObj u.ptr w.freed⟩ := by
  unfold UState.live at h
  simp [UniquePtr.reset, h]

theorem UState_inv_dtor (w : UState) (i : Nat) (u : UniquePtr) (hw : w.inv) (hu : w.live i u) :
    (UniquePtr.dtor w i).inv := by
  obtain ⟨h1, h2⟩ := hw
  rw [UniquePtr_dtor_eq w i u hu]
  have hlt := lookup_lt _ _ _ hu
  constructor
  · intro a b x y hab ha hb he
    simp only [UState.live, lookup_set _ _ _ _ _ hlt] at ha hb
    rcases ha with ⟨_, ha⟩ | ⟨_, ha⟩
    · cases ha
    rcases hb with ⟨_, hb⟩ | ⟨_, hb⟩
    · cases hb
    exact h1 a b x y hab ha hb he
  · intro a x ha hne
    simp only [UState.live, lookup_set _ _ _ _ _ hlt] at ha
    rcases ha with ⟨_, ha⟩ | ⟨hai, ha⟩
    · cases ha
    simp only [mem_deleteObj, not_or, not_and]
    refine ⟨h2 a x ha hne, fun _ he => ?_⟩
    exact hne (h1 a i x u hai ha hu he)

theorem UState_inv_moveCtor (w : UState) (j : Nat) (o : UniquePtr) (hw : w.inv)
    (ho : w.live j o) : (UniquePtr.moveCtor w j).inv := by
  obtain ⟨h1, h2⟩ := hw
  rw [UniquePtr_moveCtor_eq w j o ho]
  have hlt := lookup_lt _ _ _ ho
  have hl : ∀ k x, (UState.mk ((w.objs.set j (some ⟨0⟩)) ++ [some ⟨o.ptr⟩]) w.freed).live k x →
      (k = j ∧ x.ptr = 0) ∨ (k ≠ j ∧ w.live k x) ∨ (k = w.objs.length ∧ x = o) := by
    intro k x hk
    simp only [UState.live, lookup_push, lookup_set _ _ _ _ _ hlt, List.length_set,
      Option.some.injEq] at hk
    rcases hk with (⟨a, b⟩ | ⟨a, b⟩) | ⟨a, b⟩
    · left; exact ⟨a, by rw [← b]⟩
    · right; left; exact ⟨a, b⟩
    · right; right; refine ⟨a, ?_⟩
      cases o; cases x; simp_all
  constructor
  · intro a b x y hab ha hb he
    rcases hl a x ha with ⟨_, ha1⟩ | ⟨haj, ha1⟩ | ⟨hal, hxo⟩
    · exact ha1
    · rcases hl b y hb with ⟨_, hb1⟩ | ⟨_, hb1⟩ | ⟨_, hyo⟩
      · rw [he]; exact hb1
      · exact h1 a b x y hab ha1 hb1 he
      · exact h1 a j x o haj ha1 ho (hyo ▸ he)
    · rcases hl b y hb with ⟨_, hb1⟩ | ⟨hbj, hb1⟩ | ⟨hbl, hyo⟩
      · rw [he]; exact hb1
      · rw [he]; exact h1 b j y o hbj hb1 ho (hxo ▸ he.symm)
      · omega
  · intro a x ha hne
    rcases hl a x ha with ⟨_, ha1⟩ | ⟨_, ha1⟩ | ⟨_, hxo⟩
    · exact absurd ha1 hne
    · exact h2 a x ha1 hne
    · exact h2 j x (hxo ▸ ho) hne

theorem UState_inv_release (w : UState) (i : Nat) (u : UniquePtr) (hw : w.inv)
    (hu : w.live i u) : (UniquePtr.release w i).2.inv := by
  obtain ⟨h1, h2⟩ := hw
  rw [UniquePtr_release_eq w i u hu]
  have hlt := lookup_lt _ _ _ hu
  have hl : ∀ k x, (UState.mk (w.objs.set i (some ⟨0⟩)) w.freed).live k x →
      (k = i ∧ x.ptr = 0) ∨ (k ≠ i ∧ w.live k x) := by
    intro k x hk
    simp only [UState.live, lookup_set _ _ _ _ _ hlt, Option.some.injEq] at hk
    rcases hk with ⟨a, b⟩ | ⟨a, b⟩
    · left; exact ⟨a, by rw [← b]⟩
    · right; exact ⟨a, b⟩
  constructor
  · intro a b x y hab ha hb he
    rcases hl a x ha with ⟨_, ha⟩ | ⟨_, ha⟩
    · exact ha
    rcases hl b y hb with ⟨_, hb⟩ | ⟨_, hb⟩
    · rw [he]; exact hb
    exact h1 a b x y hab ha hb he
  · intro a x ha hne
    rcases hl a x ha with ⟨_, ha⟩ | ⟨_, ha⟩
    · exact absurd ha hne
    · exact h2 a x ha hne

theorem UState_inv_reset (w : UState) (i : Nat) (u : UniquePtr) (p : Nat) (hw : w.inv)
    (hu : w.live i u) (hp : w.rawOk p) : (UniquePtr.reset w i p).inv := by
  obtain ⟨h1, h2⟩ := hw
  rw [UniquePtr_reset_eq w i u p hu]
  have hlt := lookup_lt _ _ _ hu
  have hl : ∀ k x, (UState.mk (w.objs.set i (some ⟨p⟩)) (deleteObj u.ptr w.freed)).live k x →
      (k = i ∧ x.ptr = p) ∨ (k ≠ i ∧ w.live k x) := by
    intro k x hk
    simp only [UState.live, lookup_set _ _ _ _ _ hlt, Option.some.injEq] at hk
    rcases hk with ⟨a, b⟩ | ⟨a, b⟩
    · left; exact ⟨a, by rw [← b]⟩
    · right; exact ⟨a, b⟩
  constructor
  · intro a b x y hab ha hb he
    rcases hl a x ha with ⟨hai, ha1⟩ | ⟨hai, ha1⟩
    · rcases hl b y hb with ⟨hbi, _⟩ | ⟨_, hb1⟩
      · omega
      · rcases hp with hp | ⟨_, hp⟩
        · rw [ha1, hp]
        · exact absurd (he.symm.trans ha1) (hp b y hb1)
    · rcases hl b y hb with ⟨hbi, hb1⟩ | ⟨_, hb1⟩
      · rcases hp with hp | ⟨_, hp⟩
        · rw [he, hb1, hp]
        · exact absurd (he.trans hb1) (hp a x ha1)
      · exact h1 a b x y hab ha1 hb1 he
  · intro a x ha hne
    simp only [mem_deleteObj, not_or, not_and]
    rcases hl a x ha with ⟨_, ha1⟩ | ⟨hai, ha1⟩
    · rcases hp with hp | ⟨hpf, hp⟩
      · exact absurd (ha1.trans hp) hne
      · exact ⟨ha1 ▸ hpf, fun _ he => hp i u hu (he.symm.trans ha1)⟩
    · exact ⟨h2 a x ha1 hne, fun _ he => hne (h1 a i x u hai ha1 hu he)⟩

theorem UState_inv_moveAssign (w : UState) (i j : Nat) (d o : UniquePtr) (hw : w.inv)
    (hd : w.live i d) (ho : w.live j o) : (UniquePtr.moveAssign w i j).inv := by
  by_cases hij : i = j
  · have : UniquePtr.moveAssign w i j = w := by simp [UniquePtr.moveAssign, hij]
    rw [this]; exact hw
  obtain ⟨h1, h2⟩ := hw
  rw [UniquePtr_moveAssign_eq w i j d o hij hd ho]
  have hli := lookup_lt _ _ _ hd
  have hlj := lookup_lt _ _ _ ho
  have hl : ∀ k x, (UState.mk ((w.objs.set i (some ⟨o.ptr⟩)).set j (some ⟨0⟩))
      (deleteObj d.ptr w.freed)).live k x →
      (k = j ∧ x.ptr = 0) ∨ (k = i ∧ x.ptr = o.ptr) ∨ (k ≠ i ∧ k ≠ j ∧ w.live k x) := by
    intro k x hk
    have hlj2 : j < (w.objs.set i (some (UniquePtr.mk o.ptr))).length := by
      rw [List.length_set]; exact hlj
    simp only [UState.live, lookup_set _ _ _ _ _ hlj2, lookup_set _ _ _ _ _ hli,
      Option.some.injEq] at hk
    rcases hk with ⟨a, b⟩ | ⟨a, ⟨c, b⟩ | ⟨c, b⟩⟩
    · left; exact ⟨a, by rw [← b]⟩
    · right; left; exact ⟨c, by rw [← b]⟩
    · right; right; exact ⟨c, a, b⟩
  constructor
  · intro a b x y hab ha hb he
    rcases hl a x ha with ⟨_, ha1⟩ | ⟨hai, ha1⟩ | ⟨hai, haj, ha1⟩
    · exact ha1
    · rcases hl b y hb with ⟨_, hb1⟩ | ⟨hbi, _⟩ | ⟨_, hbj, hb1⟩
      · rw [he]; exact hb1
      · omega
      · rw [he]; exact h1 b j y o hbj hb1 ho (he.symm.trans ha1)
    · rcases hl b y hb with ⟨_, hb1⟩ | ⟨_, hb1⟩ | ⟨_, _, hb1⟩
      · rw [he]; exact hb1
      · exact h1 a j x o haj ha1 ho (he.trans hb1)
      · exact h1 a b x y hab ha1 hb1 he
  · intro a x ha hne
    simp only [mem_deleteObj, not_or, not_and]
    rcases hl a x ha with ⟨_, ha1⟩ | ⟨_, ha1⟩ | ⟨hai, _, ha1⟩
    · exact absurd ha1 hne
    · have hne2 : o.ptr ≠ 0 := ha1 ▸ hne
      refine ⟨ha1 ▸ h2 j o ho hne2, fun _ he => ?_⟩
      exact hne2 (h1 j i o d (fun e => hij e.symm) ho hd (ha1.symm.trans he))
    · exact ⟨h2 a x ha1 hne, fun _ he => hne (h1 a i x d hai ha1 hd he)⟩

theorem UReachable_inv (w : UState) (h : UReachable w) : w.inv := by
  induction h with
  | init => exact UState_inv_init
  | ctor w p _ hp ih => exact UState_inv_ctor w p ih hp
  | dtor w i u _ hu ih => exact UState_inv_dtor w i u ih hu
  | moveCtor w j o _ ho ih => exact UState_inv_moveCtor w j o ih ho
  | moveAssign w i j d o _ hd ho ih => exact UState_inv_moveAssign w i j d o ih hd ho
  | release w i u _ hu ih => exact UState_inv_release w i u ih hu
  | reset w i u p _ hu hp ih => exact UState_inv_reset w i u p ih hu hp

/-! ## Claims on UniquePtr -/

/-- C3: in every state reachable by the `UniquePtr` operations (constructor, move constructor, move
assignment, `release`, `reset`, destructor), where every raw pointer handed to the constructor or to
`reset` is null or an unfreed allocation held by no live owner, two distinct live owners that hold
the same pointer hold `nullptr`, and a non-null pointer held by a live owner has not been freed. -/
theorem uniquePtr_exclusive_ownership (w : UState) (h : UReachable w) :
    (∀ i j u v, i ≠ j → w.live i u → w.live j v → u.get = v.get → u.get = 0) ∧
    (∀ i u, w.live i u → u.get ≠ 0 → u.get ∉ w.freed) :=
  UReachable_inv w h

/-- C3 at a concrete reachable state: two owners built from the allocations `10` and `11`, the
first reset to `12` (which frees `10`), then the second moved into the first (which frees `12`). -/
theorem uniquePtr_exclusive_ownership_witness :
    (UniquePtr.moveAssign (UniquePtr.reset (UniquePtr.ctor (UniquePtr.ctor UState.init 10) 11)
        0 12) 0 1) = ⟨[some ⟨11⟩, some ⟨0⟩], [10, 12]⟩ ∧
    ((∀ i j u v, i ≠ j → (UState.mk [some ⟨11⟩, some ⟨0⟩] [10, 12]).live i u →
        (UState.mk [some ⟨11⟩, some ⟨0⟩] [10, 12]).live j v → u.get = v.get → u.get = 0) ∧
      (∀ i u, (UState.mk [some ⟨11⟩, some ⟨0⟩] [10, 12]).live i u → u.get ≠ 0 →
        u.get ∉ (UState.mk [some ⟨11⟩, some ⟨0⟩] [10, 12]).freed)) := by
  refine ⟨by decide, uniquePtr_exclusive_ownership _ ?_⟩
  have e : (UState.mk [some ⟨11⟩, some ⟨0⟩] [10, 12]) =
      UniquePtr.moveAssign (UniquePtr.reset (UniquePtr.ctor (UniquePtr.ctor UState.init 10) 11)
        0 12) 0 1 := by decide
  rw [e]
  refine UReachable.moveAssign _ 0 1 ⟨12⟩ ⟨11⟩ ?_ (by decide) (by decide)
  refine UReachable.reset _ 0 ⟨10⟩ 12 ?_ (by decide) ?_
  · refine UReachable.ctor _ 11 (UReachable.ctor _ 10 UReachable.init ?_) ?_
    · right
      refine ⟨by decide, fun j u hj => ?_⟩
      simp [UState.live, UState.init] at hj
    · right
      refine ⟨by decide, fun j u hj => ?_⟩
      have hlt := lookup_lt _ _ _ hj
      have hj0 : j = 0 := by
        simp [UniquePtr.ctor, UState.init] at hlt
        exact hlt
      subst hj0
      have : u = ⟨10⟩ := by
        simp [UState.live, UniquePtr.ctor, UState.init] at hj
        exact hj.symm
      subst this
      decide
  · right
    refine ⟨by decide, fun j u hj => ?_⟩
    have hlt := lookup_lt _ _ _ hj
    simp [UniquePtr.ctor, UState.init] at hlt
    have hc : j = 0 ∨ j = 1 := by omega
    rcases hc with rfl | rfl
    · have : u = ⟨10⟩ := by
        simp [UState.live, UniquePtr.ctor, UState.init] at hj
        exact hj.symm
      subst this; decide
    · have : u = ⟨11⟩ := by
        simp [UState.live, UniquePtr.ctor, UState.init] at hj
        exact hj.symm
      subst this; decide

/-! ## The counting invariant of SharedPtr -/

theorem countP_set_add {α : Type} (p : α → Bool) (l : List α) (i : Nat) (a b : α)
    (h : l[i]? = some a) :
    (l.set i b).countP p + (if p a then 1 else 0) = l.countP p + (if p b then 1 else 0) := by
  induction l generalizing i with
  | nil => simp at h
  | cons x l ih =>
    cases i with
    | zero =>
      simp only [List.getElem?_cons_zero, Option.some.injEq] at h
      subst h
      simp only [List.set_cons_zero, List.countP_cons]
      omega
    | succ i =>
      simp only [List.getElem?_cons_succ] at h
      have := ih i h
      simp only [List.set_cons_succ, List.countP_cons]
      omega

theorem refs_pos_of_lookup (l : List (Option SharedPtr)) (i : Nat) (s : SharedPtr)
    (h : l[i]? = some (some s)) : 1 ≤ l.countP (refP s.refCount) := by
  have hm : some s ∈ l := List.getElem?_mem h
  have : 0 < l.countP (refP s.refCount) :=
    List.countP_pos_iff.mpr ⟨some s, hm, by simp [refP]⟩
  omega

theorem SState_refs_pos (w : SState) (i : Nat) (s : SharedPtr) (h : w.live i s) :
    1 ≤ w.refs s.refCount :=
  refs_pos_of_lookup w.objs i s h

theorem SharedPtr_release_objs (s : SharedPtr) (w : SState) : (s.release w).objs = w.objs := by
  unfold SharedPtr.release
  split
  · simp only []
    split <;> rfl
  · rfl

theorem SharedPtr_release_allocs (s : SharedPtr) (w : SState) :
    (s.release w).allocs = w.allocs := by
  unfold SharedPtr.release
  split
  · simp only []
    split <;> rfl
  · rfl

theorem SharedPtr_release_ints (s : SharedPtr) (w : SState) (c : Nat) :
    (s.release w).ints c =
      if s.refCount ≠ 0 ∧ c = s.refCount then w.ints c - 1 else w.ints c := by
  unfold SharedPtr.release
  by_cases h0 : s.refCount = 0
  · simp [h0]
  · simp only [h0, ne_eq, not_false_eq_true, if_true, true_and]
    split <;> (simp only [setInt]; split <;> simp_all)

theorem SharedPtr_release_freed (s : SharedPtr) (w : SState) :
    (s.release w).freed =
      if s.refCount ≠ 0 ∧ w.ints s.refCount - 1 = 0 then
        deleteVal s.ptr w.freed ++ [Free.cnt s.refCount]
      else w.freed := by
  unfold SharedPtr.release
  by_cases h0 : s.refCount = 0
  · simp [h0]
  · simp only [h0, ne_eq, not_false_eq_true, if_true, true_and, setInt]
    split <;> rfl

theorem mem_deleteVal_cnt (c p : Nat) (f : List Free) :
    Free.cnt c ∈ deleteVal p f ↔ Free.cnt c ∈ f := by
  unfold deleteVal
  split <;> simp

theorem SharedPtr_release_freed_cnt (s : SharedPtr) (w : SState) (c : Nat) :
    Free.cnt c ∈ (s.release w).freed ↔
      Free.cnt c ∈ w.freed ∨ (s.refCount ≠ 0 ∧ c = s.refCount ∧ w.ints c - 1 = 0) := by
  rw [SharedPtr_release_freed]
  split
  · rename_i h
    simp only [List.mem_append, mem_deleteVal_cnt, List.mem_singleton, Free.cnt.injEq]
    constructor
    · rintro (h1 | h1)
      · exact Or.inl h1
      · subst h1; exact Or.inr ⟨h.1, rfl, h.2⟩
    · rintro (h1 | ⟨_, h1, _⟩)
      · exact Or.inl h1
      · exact Or.inr h1
  · rename_i h
    constructor
    · exact Or.inl
    · rintro (h1 | ⟨a, b, c⟩)
      · exact h1
      · subst b; exact absurd ⟨a, c⟩ h

theorem SState_inv_of_refs_pos (w : SState) (hw : w.inv) (c : Nat) (hc : 1 ≤ c)
    (hr : 1 ≤ w.refs c) :
    c ≤ w.allocs ∧ Free.cnt c ∉ w.freed ∧ w.ints c = (w.refs c : Int) := by
  obtain ⟨hA, hB, _⟩ := hw
  have h1 : c ≤ w.allocs := by
    by_contra h
    have := hB c hc (Or.inl (by omega))
    omega
  have h2 : Free.cnt c ∉ w.freed := by
    intro h
    have := hB c hc (Or.inr h)
    omega
  exact ⟨h1, h2, hA c hc h1 h2⟩

theorem SState_inv_init : SState.init.inv := by
  refine ⟨?_, ?_, ?_⟩
  · intro c h1 h2
    simp only [SState.init] at h2
    omega
  · intro c _ _
    simp [SState.refs, SState.init]
  · intro c h
    simp [SState.init] at h

/-- Invariance under the release step on the object in slot `i` followed by overwriting the slot
with something that refers to no counter. -/
theorem SState_inv_clear (w : SState) (i : Nat) (d : SharedPtr) (x : Option SharedPtr)
    (hw : w.inv) (hd : w.live i d) (hx : ∀ c, 1 ≤ c → refP c x = false) :
    ({ d.release w with objs := w.objs.set i x } : SState).inv := by
  have hcount : ∀ c, 1 ≤ c →
      (w.objs.set i x).countP (refP c) + (if d.refCount = c then 1 else 0) = w.refs c := by
    intro c hc
    have := countP_set_add (refP c) w.objs i (some d) x hd
    rw [hx c hc] at this
    have e : refP c (some d) = decide (d.refCount = c) := rfl
    rw [e] at this
    simpa [SState.refs] using this
  have hpos := SState_refs_pos w i d hd
  obtain ⟨hA, hB, hC⟩ := hw
  refine ⟨?_, ?_, ?_⟩
  · intro c hc hal hfr
    simp only [SharedPtr_release_allocs] at hal
    simp only [SharedPtr_release_freed_cnt, not_or, not_and] at hfr
    have hi := hA c hc hal hfr.1
    have hcnt := hcount c hc
    simp only [SState.refs, SharedPtr_release_ints]
    simp only [SState.refs] at hi hcnt
    by_cases hdc : d.refCount = c
    · have hd0 : d.refCount ≠ 0 := by omega
      simp only [hdc, if_true] at hcnt
      rw [if_pos ⟨hd0, hdc.symm⟩]
      omega
    · simp only [hdc, if_false] at hcnt
      rw [if_neg (fun h => hdc h.2.symm)]
      omega
  · intro c hc hor
    simp only [SharedPtr_release_allocs, SharedPtr_release_freed_cnt] at hor
    have hcnt := hcount c hc
    simp only [SState.refs]
    rcases hor with h | h | ⟨hd0, hcd, hz⟩
    · have := hB c hc (Or.inl h)
      omega
    · have := hB c hc (Or.inr h)
      omega
    · subst hcd
      have h3 := SState_inv_of_refs_pos w ⟨hA, hB, hC⟩ d.refCount hc hpos
      simp only [if_true] at hcnt
      omega
  · intro c hc
    simp only [SharedPtr_release_allocs, SharedPtr_release_freed_cnt] at hc ⊢
    rcases hc with h | ⟨hd0, hcd, _⟩
    · exact hC c h
    · subst hcd
      have h3 := SState_inv_of_refs_pos w ⟨hA, hB, hC⟩ d.refCount (by omega) hpos
      exact ⟨by omega, h3.1⟩

theorem wrapInt_of_range (x : Int) (h1 : -2147483648 ≤ x) (h2 : x ≤ 2147483647) :
    wrapInt x = x := by
  unfold wrapInt
  omega

theorem wrapInt_le (x : Int) : wrapInt x ≤ 2147483647 := by
  unfold wrapInt
  omega

/-- Invariance under a change of the store that keeps every count. -/
theorem SState_inv_same (w : SState) (objs : List (Option SharedPtr)) (hw : w.inv)
    (hcount : ∀ c, 1 ≤ c → objs.countP (refP c) = w.refs c) :
    (SState.mk objs w.ints w.allocs w.freed).inv := by
  obtain ⟨hA, hB, hC⟩ := hw
  refine ⟨?_, ?_, hC⟩
  · intro c hc hal hfr
    simp only [SState.refs, hcount c hc]
    exact hA c hc hal hfr
  · intro c hc hor
    simp only [SState.refs, hcount c hc]
    exact hB c hc hor

/-- Invariance under one more owner of the counter `r` (if `r` is not null) together with the
increment of that counter. -/
theorem SState_inv_inc (w : SState) (objs : List (Option SharedPtr)) (r : Nat) (hw : w.inv)
    (hcount : ∀ c, 1 ≤ c → objs.countP (refP c) = w.refs c + (if r = c then 1 else 0))
    (hpos : r ≠ 0 → 1 ≤ w.refs r) (hmax : r ≠ 0 → w.ints r < 2147483647) :
    (SState.mk objs (if r ≠ 0 then setInt w.ints r (wrapInt (w.ints r + 1)) else w.ints)
      w.allocs w.freed).inv := by
  have h3 := fun h0 : r ≠ 0 => SState_inv_of_refs_pos w hw r (by omega) (hpos h0)
  obtain ⟨hA, hB, hC⟩ := hw
  refine ⟨?_, ?_, hC⟩
  · intro c hc hal hfr
    have hi := hA c hc hal hfr
    have hcnt := hcount c hc
    simp only [SState.refs, hcnt]
    by_cases hrc : r = c
    · subst hrc
      have hr0 : r ≠ 0 := by omega
      have hm := hmax hr0
      have hp1 := (h3 hr0).2.2
      have hp2 := hpos hr0
      simp only [SState.refs] at hp1 hp2
      simp only [hr0, ne_eq, not_false_eq_true, if_true, setInt]
      simp only [SState.refs] at hi
      rw [wrapInt_of_range _ (by omega) (by omega)]
      push_cast
      omega
    · have : (if r ≠ 0 then setInt w.ints r (wrapInt (w.ints r + 1)) else w.ints) c =
          w.ints c := by
        split
        · simp only [setInt]
          rw [if_neg (fun h => hrc h.symm)]
        · rfl
      simp only [this, hrc, if_false, Nat.add_zero]
      exact hi
  · intro c hc hor
    have hz := hB c hc hor
    have hcnt := hcount c hc
    simp only [SState.refs, hcnt]
    by_cases hrc : r = c
    · subst hrc
      have hr0 : r ≠ 0 := by omega
      have := h3 hr0
      rcases hor with h | h
      · omega
      · exact absurd h this.2.1
    · simp only [hrc, if_false, Nat.add_zero]
      exact hz

theorem SharedPtr_ctor_eq (w : SState) (p : Nat) (hp : p ≠ 0) :
    SharedPtr.ctor w p = ⟨w.objs ++ [some ⟨p, w.allocs + 1⟩], setInt w.ints (w.allocs + 1) 1,
      w.allocs + 1, w.freed⟩ := by
  simp [SharedPtr.ctor, hp]

theorem SharedPtr_ctor_null (w : SState) :
    SharedPtr.ctor w 0 = ⟨w.objs ++ [some ⟨0, 0⟩], w.ints, w.allocs, w.freed⟩ := by
  simp [SharedPtr.ctor]

theorem SharedPtr_dtor_eq (w : SState) (i : Nat) (s : SharedPtr) (h : w.live i s) :
    SharedPtr.dtor w i = { s.release w with objs := w.objs.set i none } := by
  unfold SState.live at h
  simp [SharedPtr.dtor, h]

theorem SharedPtr_copyCtor_eq (w : SState) (j : Nat) (o : SharedPtr) (h : w.live j o) :
    SharedPtr.copyCtor w j = ⟨w.objs ++ [some ⟨o.ptr, o.refCount⟩],
      if o.refCount ≠ 0 then setInt w.ints o.refCount (wrapInt (w.ints o.refCount + 1))
      else w.ints,
      w.allocs, w.freed⟩ := by
  unfold SState.live at h
  simp only [SharedPtr.copyCtor, h]
  split <;> rfl

theorem SharedPtr_copyAssign_eq (w : SState) (i j : Nat) (d o : SharedPtr) (hij : i ≠ j)
    (hi : w.live i d) (hj : w.live j o) :
    SharedPtr.copyAssign w i j = ⟨w.objs.set i (some ⟨o.ptr, o.refCount⟩),
      if o.refCount ≠ 0 then
        setInt (d.release w).ints o.refCount (wrapInt ((d.release w).ints o.refCount + 1))
      else (d.release w).ints,
      w.allocs, (d.release w).freed⟩ := by
  unfold SState.live at hi hj
  simp only [SharedPtr.copyAssign, hi, hj, hij, ne_eq, not_false_eq_true, if_true,
    SharedPtr_release_objs]
  split <;> simp [SharedPtr_release_allocs]

theorem SharedPtr_moveCtor_eq (w : SState) (j : Nat) (o : SharedPtr) (h : w.live j o) :
    SharedPtr.moveCtor w j = ⟨(w.objs.set j (some ⟨0, 0⟩)) ++ [some ⟨o.ptr, o.refCount⟩],
      w.ints, w.allocs, w.freed⟩ := by
  unfold SState.live at h
  simp [SharedPtr.moveCtor, h]

theorem SharedPtr_moveAssign_eq (w : SState) (i j : Nat) (d o : SharedPtr) (hij : i ≠ j)
    (hi : w.live i d) (hj : w.live j o) :
    SharedPtr.moveAssign w i j =
      ⟨(w.objs.set i (some ⟨o.ptr, o.refCount⟩)).set j (some ⟨0, 0⟩),
        (d.release w).ints, w.allocs, (d.release w).freed⟩ := by
  unfold SState.live at hi hj
  simp [SharedPtr.moveAssign, hi, hj, hij, SharedPtr_release_objs, SharedPtr_release_allocs]

theorem refP_null (c q : Nat) (hc : 1 ≤ c) : refP c (some ⟨q, 0⟩) = false := by
  simp only [refP, decide_eq_false_iff_not]
  omega

theorem refP_some (c : Nat) (s : SharedPtr) :
    (if refP c (some s) = true then 1 else 0) = (if s.refCount = c then 1 else 0) := by
  simp [refP]

theorem SState_inv_ctor (w : SState) (p : Nat) (hw : w.inv) : (SharedPtr.ctor w p).inv := by
  by_cases hp : p = 0
  · subst hp
    rw [SharedPtr_ctor_null]
    refine SState_inv_same w _ hw (fun c hc => ?_)
    simp [SState.refs, refP_null c 0 hc]
  · rw [SharedPtr_ctor_eq w p hp]
    obtain ⟨hA, hB, hC⟩ := hw
    have hcount : ∀ c, (w.objs ++ [some (SharedPtr.mk p (w.allocs + 1))]).countP (refP c) =
        w.refs c + (if w.allocs + 1 = c then 1 else 0) := by
      intro c
      simp [SState.refs, refP, List.countP_cons]
    refine ⟨?_, ?_, ?_⟩
    · intro c hc hal hfr
      simp only [SState.refs, hcount c, setInt]
      by_cases h : c = w.allocs + 1
      · subst h
        have := hB (w.allocs + 1) hc (Or.inl (by omega))
        simp only [SState.refs] at this
        rw [this]
        simp
      · have h2 : ¬ w.allocs + 1 = c := fun e => h e.symm
        simp only [h, h2, if_false, Nat.add_zero]
        exact hA c hc (by simp only [] at hal; omega) hfr
    · intro c hc hor
      simp only [SState.refs, hcount c]
      have hne : ¬ w.allocs + 1 = c := by
        intro e
        rcases hor with h | h
        · simp only [] at h; omega
        · have := (hC c h).2
          omega
      simp only [hne, if_false, Nat.add_zero]
      rcases hor with h | h
      · exact hB c hc (Or.inl (by simp only [] at h; omega))
      · exact hB c hc (Or.inr h)
    · intro c hc
      have := hC c hc
      exact ⟨this.1, by simp only []; omega⟩

theorem SState_inv_dtor (w : SState) (i : Nat) (s : SharedPtr) (hw : w.inv) (hs : w.live i s) :
    (SharedPtr.dtor w i).inv := by
  rw [SharedPtr_dtor_eq w i s hs]
  exact SState_inv_clear w i s none hw hs (fun _ _ => rfl)

theorem SState_inv_copyCtor (w : SState) (j : Nat) (o : SharedPtr) (hw : w.inv)
    (ho : w.live j o) (hmax : o.refCount ≠ 0 → w.ints o.refCount < 2147483647) :
    (SharedPtr.copyCtor w j).inv := by
  rw [SharedPtr_copyCtor_eq w j o ho]
  refine SState_inv_inc w _ o.refCount hw (fun c _ => ?_) (fun _ => SState_refs_pos w j o ho)
    hmax
  simp [SState.refs, refP, List.countP_cons]

theorem SState_inv_moveCtor (w : SState) (j : Nat) (o : SharedPtr) (hw : w.inv)
    (ho : w.live j o) : (SharedPtr.moveCtor w j).inv := by
  rw [SharedPtr_moveCtor_eq w j o ho]
  refine SState_inv_same w _ hw (fun c hc => ?_)
  have h1 := countP_set_add (refP c) w.objs j (some o) (some ⟨0, 0⟩) ho
  rw [refP_null c 0 hc, refP_some] at h1
  simp only [List.countP_append, List.countP_cons, List.countP_nil, refP_some, SState.refs]
  have e : (if refP c (some (SharedPtr.mk o.ptr o.refCount)) = true then 1 else 0) =
      (if o.refCount = c then 1 else 0) := refP_some c _
  simp only [Bool.false_eq_true, if_false] at h1
  omega

theorem SState_inv_copyAssign (w : SState) (i j : Nat) (d o : SharedPtr) (hw : w.inv)
    (hd : w.live i d) (ho : w.live j o)
    (hmax : i ≠ j → o.refCount ≠ 0 → (d.release w).ints o.refCount < 2147483647) :
    (SharedPtr.copyAssign w i j).inv := by
  by_cases hij : i = j
  · have : SharedPtr.copyAssign w i j = w := by simp [SharedPtr.copyAssign, hij]
    rw [this]; exact hw
  rw [SharedPtr_copyAssign_eq w i j d o hij hd ho]
  have h1 := SState_inv_clear w i d (some ⟨0, 0⟩) hw hd (fun c hc => refP_null c 0 hc)
  have hlt := lookup_lt _ _ _ hd
  have hj1 : ({ d.release w with objs := w.objs.set i (some ⟨0, 0⟩) } : SState).live j o := by
    simp only [SState.live, List.getElem?_set_ne hij]
    exact ho
  have hi1 : (w.objs.set i (some (SharedPtr.mk 0 0)))[i]? = some (some ⟨0, 0⟩) := by
    simp [List.getElem?_set, hlt]
  have h2 := SState_inv_inc _ (w.objs.set i (some ⟨o.ptr, o.refCount⟩)) o.refCount h1
    (fun c hc => ?_) (fun _ => SState_refs_pos _ j o hj1) (hmax hij)
  · simpa [SharedPtr_release_allocs] using h2
  · have h3 := countP_set_add (refP c) _ i _ (some ⟨o.ptr, o.refCount⟩) hi1
    rw [refP_null c 0 hc, List.set_set] at h3
    have e : (if refP c (some (SharedPtr.mk o.ptr o.refCount)) = true then 1 else 0) =
        (if o.refCount = c then 1 else 0) := refP_some c _
    simp only [e, Bool.false_eq_true, if_false, Nat.add_zero] at h3
    simp only [SState.refs]
    exact h3

theorem SState_inv_moveAssign (w : SState) (i j : Nat) (d o : SharedPtr) (hw : w.inv)
    (hd : w.live i d) (ho : w.live j o) : (SharedPtr.moveAssign w i j).inv := by
  by_cases hij : i = j
  · have : SharedPtr.moveAssign w i j = w := by simp [SharedPtr.moveAssign, hij]
    rw [this]; exact hw
  rw [SharedPtr_moveAssign_eq w i j d o hij hd ho]
  have h1 := SState_inv_clear w i d (some ⟨0, 0⟩) hw hd (fun c hc => refP_null c 0 hc)
  have hlt := lookup_lt _ _ _ hd
  have hi1 : (w.objs.set i (some (SharedPtr.mk 0 0)))[i]? = some (some ⟨0, 0⟩) := by
    simp [List.getElem?_set, hlt]
  have hj2 : (w.objs.set i (some (SharedPtr.mk o.ptr o.refCount)))[j]? = some (some o) := by
    rw [List.getElem?_set_ne hij]
    exact ho
  have h2 := SState_inv_same _ ((w.objs.set i (some ⟨o.ptr, o.refCount⟩)).set j (some ⟨0, 0⟩))
    h1 (fun c hc => ?_)
  · simpa [SharedPtr_release_allocs] using h2
  · have h3 := countP_set_add (refP c) _ i _ (some ⟨o.ptr, o.refCount⟩) hi1
    rw [refP_null c 0 hc, List.set_set] at h3
    have h4 := countP_set_add (refP c) _ j _ (some ⟨0, 0⟩) hj2
    rw [refP_null c 0 hc] at h4
    have e : (if refP c (some (SharedPtr.mk o.ptr o.refCount)) = true then 1 else 0) =
        (if o.refCount = c then 1 else 0) := refP_some c _
    simp only [e, refP_some, Bool.false_eq_true, if_false, Nat.add_zero] at h3 h4
    simp only [SState.refs]
    omega

theorem SReachable_inv (w : SState) (h : SReachable w) : w.inv := by
  induction h with
  | init => exact SState_inv_init
  | ctor w p _ _ ih => exact SState_inv_ctor w p ih
  | dtor w i s _ hs ih => exact SState_inv_dtor w i s ih hs
  | copyCtor w j o _ ho hm ih => exact SState_inv_copyCtor w j o ih ho hm
  | copyAssign w i j d o _ hd ho hm ih => exact SState_inv_copyAssign w i j d o ih hd ho hm
  | moveCtor w j o _ ho ih => exact SState_inv_moveCtor w j o ih ho
  | moveAssign w i j d o _ hd ho ih => exact SState_inv_moveAssign w i j d o ih hd ho

/-! ## The shape invariant of SharedPtr -/

theorem SharedPtr_release_ints_le (d : SharedPtr) (w : SState) (c : Nat) :
    (d.release w).ints c ≤ w.ints c := by
  rw [SharedPtr_release_ints]
  split <;> omega

/-! ## The range of the counters -/

theorem SReachable_le_max (w : SState) (h : SReachable w) : ∀ c, w.ints c ≤ 2147483647 := by
  induction h with
  | init =>
    intro c
    simp [SState.init]
  | ctor w p _ _ ih =>
    intro c
    by_cases hp : p = 0
    · subst hp
      rw [SharedPtr_ctor_null]
      exact ih c
    · rw [SharedPtr_ctor_eq w p hp]
      simp only [setInt]
      split
      · omega
      · exact ih c
  | dtor w i s _ hs ih =>
    intro c
    rw [SharedPtr_dtor_eq w i s hs]
    exact le_trans (SharedPtr_release_ints_le s w c) (ih c)
  | copyCtor w j o _ ho _ ih =>
    intro c
    rw [SharedPtr_copyCtor_eq w j o ho]
    simp only []
    split
    · simp only [setInt]
      split
      · exact wrapInt_le _
      · exact ih c
    · exact ih c
  | copyAssign w i j d o _ hd ho _ ih =>
    intro c
    by_cases hij : i = j
    · have : SharedPtr.copyAssign w i j = w := by simp [SharedPtr.copyAssign, hij]
      rw [this]; exact ih c
    · rw [SharedPtr_copyAssign_eq w i j d o hij hd ho]
      simp only []
      split
      · simp only [setInt]
        split
        · exact wrapInt_le _
        · exact le_trans (SharedPtr_release_ints_le d w c) (ih c)
      · exact le_trans (SharedPtr_release_ints_le d w c) (ih c)
  | moveCtor w j o _ ho ih =>
    intro c
    rw [SharedPtr_moveCtor_eq w j o ho]
    exact ih c
  | moveAssign w i j d o _ hd ho ih =>
    intro c
    by_cases hij : i = j
    · have : SharedPtr.moveAssign w i j = w := by simp [SharedPtr.moveAssign, hij]
      rw [this]; exact ih c
    · rw [SharedPtr_moveAssign_eq w i j d o hij hd ho]
      exact le_trans (SharedPtr_release_ints_le d w c) (ih c)

/-! ## The members of a group -/

theorem wrapInt_max (x : Int) (h : x = 2147483647) : wrapInt (x + 1) = -2147483648 := by
  subst h
  unfold wrapInt
  norm_num

theorem count_succ_max (n : Nat) (x : Int) (h1 : x = 2147483647) (h2 : x = (n : Int)) :
    n + 1 = 2147483648 := by
  have h3 : (n : Int) = 2147483647 := by rw [← h2, h1]
  have h4 : n = 2147483647 := by exact_mod_cast h3
  rw [h4]

theorem copies_spec (n : Nat) (hn : n ≤ 2147483646) :
    SReachable (copies (SharedPtr.ctor SState.init 20) n) ∧
    (copies (SharedPtr.ctor SState.init 20) n).live 0 ⟨20, 1⟩ ∧
    (copies (SharedPtr.ctor SState.init 20) n).ints 1 = (n : Int) + 1 ∧
    (copies (SharedPtr.ctor SState.init 20) n).objs.length = n + 1 ∧
    (copies (SharedPtr.ctor SState.init 20) n).allocs = 1 ∧
    (copies (SharedPtr.ctor SState.init 20) n).freed = [] := by
  induction n with
  | zero =>
    refine ⟨?_, by decide, by decide, by decide, by decide, by decide⟩
    refine SReachable.ctor _ 20 SReachable.init (Or.inr ⟨by decide, by decide, ?_⟩)
    intro j s hj
    simp [SState.live, SState.init] at hj
  | succ n ih =>
    obtain ⟨hr, hl, hi, hlen, ha, hf⟩ := ih (by omega)
    have hstep : copies (SharedPtr.ctor SState.init 20) (n + 1) =
        SharedPtr.copyCtor (copies (SharedPtr.ctor SState.init 20) n) 0 := rfl
    have hm : (SharedPtr.mk 20 1).refCount ≠ 0 →
        (copies (SharedPtr.ctor SState.init 20) n).ints (SharedPtr.mk 20 1).refCount <
          2147483647 := by
      intro _
      show (copies (SharedPtr.ctor SState.init 20) n).ints 1 < 2147483647
      rw [hi]; omega
    refine ⟨?_, ?_, ?_, ?_, ?_, ?_⟩
    · rw [hstep]
      exact SReachable.copyCtor _ 0 ⟨20, 1⟩ hr hl hm
    · rw [hstep, SharedPtr_copyCtor_eq _ 0 _ hl]
      simp only [SState.live]
      rw [lookup_push]
      exact Or.inl hl
    · rw [hstep, SharedPtr_copyCtor_eq _ 0 _ hl]
      simp only [ne_eq, one_ne_zero, not_false_eq_true, if_true, setInt, hi]
      rw [wrapInt_of_range _ (by omega) (by omega)]
      push_cast
      ring
    · rw [hstep, SharedPtr_copyCtor_eq _ 0 _ hl]
      simp [hlen]
    · rw [hstep, SharedPtr_copyCtor_eq _ 0 _ hl]
      exact ha
    · rw [hstep, SharedPtr_copyCtor_eq _ 0 _ hl]
      exact hf

/-- The state after `sp(new Test(20))` and 2147483646 copies of it is reachable, and its counter
holds `INT_MAX`. -/
theorem copies_max :
    SReachable (copies (SharedPtr.ctor SState.init 20) 2147483646) ∧
    (copies (SharedPtr.ctor SState.init 20) 2147483646).live 0 ⟨20, 1⟩ ∧
    (copies (SharedPtr.ctor SState.init 20) 2147483646).ints 1 = 2147483647 ∧
    (copies (SharedPtr.ctor SState.init 20) 2147483646).objs.length = 2147483647 ∧
    (copies (SharedPtr.ctor SState.init 20) 2147483646).allocs = 1 ∧
    (copies (SharedPtr.ctor SState.init 20) 2147483646).freed = [] := by
  obtain ⟨hr, hl, hi, hlen, ha, hf⟩ := copies_spec 2147483646 (Nat.le_refl _)
  refine ⟨hr, hl, ?_, hlen, ha, hf⟩
  rw [hi]
  norm_num

/-! ## Claims on SharedPtr -/

theorem reach_one : SReachable (SharedPtr.ctor SState.init 20) := by
  refine SReachable.ctor _ 20 SReachable.init (Or.inr ⟨by decide, by decide, fun j s hj => ?_⟩)
  simp [SState.live, SState.init] at hj

theorem reach_two : SReachable (SharedPtr.copyCtor (SharedPtr.ctor SState.init 20) 0) :=
  SReachable.copyCtor _ 0 ⟨20, 1⟩ reach_one (by decide) (by decide)

/-- One copy construction too many: from a reachable state whose only counter holds `INT_MAX`,
a further copy of the owner in slot 0 wraps the counter while the number of owners grows. -/
theorem overflow_step (W : SState) (hr : SReachable W) (hl : W.live 0 ⟨20, 1⟩)
    (hi : W.ints 1 = 2147483647) (ha : W.allocs = 1) (hf : W.freed = []) :
    W.ints 1 = 2147483647 ∧
    (SharedPtr.copyCtor W 0).live 0 ⟨20, 1⟩ ∧
    (SharedPtr.copyCtor W 0).allocs = 1 ∧
    Free.cnt 1 ∉ (SharedPtr.copyCtor W 0).freed ∧
    (SharedPtr.copyCtor W 0).refs 1 = 2147483648 ∧
    (SharedPtr.copyCtor W 0).ints 1 = -2147483648 ∧
    (SharedPtr.mk 20 1).use_count (SharedPtr.copyCtor W 0) = -2147483648 := by
  have hrefs := (SReachable_inv W hr).1 1 (Nat.le_refl 1) (by rw [ha]) (by rw [hf]; simp)
  have hlive : (SharedPtr.copyCtor W 0).live 0 ⟨20, 1⟩ := by
    rw [SharedPtr_copyCtor_eq W 0 _ hl]
    simp only [SState.live]
    rw [lookup_push]
    exact Or.inl hl
  have hints : (SharedPtr.copyCtor W 0).ints 1 = -2147483648 := by
    rw [SharedPtr_copyCtor_eq W 0 _ hl]
    simp only [ne_eq, one_ne_zero, not_false_eq_true, if_true, setInt]
    exact wrapInt_max _ hi
  refine ⟨hi, hlive, ?_, ?_, ?_, hints, ?_⟩
  · rw [SharedPtr_copyCtor_eq W 0 _ hl]
    exact ha
  · rw [SharedPtr_copyCtor_eq W 0 _ hl]
    simp [hf]
  · rw [SharedPtr_copyCtor_eq W 0 _ hl]
    have hc : (W.objs ++ [some (SharedPtr.mk 20 1)]).countP (refP 1) = W.refs 1 + 1 := by
      simp [SState.refs, refP, List.countP_cons]
    simp only [SState.refs] at hc hrefs ⊢
    rw [hc]
    exact count_succ_max _ _ hi hrefs
  · simp only [SharedPtr.use_count, ne_eq, one_ne_zero, not_false_eq_true, if_true]
    exact hints

/-- C1, refuted as stated: after `sp(new Test(20))` and 2147483646 copy constructions from it the
counter at address 1 holds `INT_MAX`; one more copy construction wraps the 32-bit counter, and in
the state reached the counter, which has not been freed, has 2147483648 live owners and holds
-2147483648, which is also what `use_count()` returns for the live owner in slot 0. -/
theorem sharedPtr_count_invariant_counterexample :
    (copies (SharedPtr.ctor SState.init 20) 2147483646).ints 1 = 2147483647 ∧
    (SharedPtr.copyCtor (copies (SharedPtr.ctor SState.init 20) 2147483646) 0).live 0 ⟨20, 1⟩ ∧
    (SharedPtr.copyCtor (copies (SharedPtr.ctor SState.init 20) 2147483646) 0).allocs = 1 ∧
    Free.cnt 1 ∉
      (SharedPtr.copyCtor (copies (SharedPtr.ctor SState.init 20) 2147483646) 0).freed ∧
    (SharedPtr.copyCtor (copies (SharedPtr.ctor SState.init 20) 2147483646) 0).refs 1 =
      2147483648 ∧
    (SharedPtr.copyCtor (copies (SharedPtr.ctor SState.init 20) 2147483646) 0).ints 1 =
      -2147483648 ∧
    (SharedPtr.mk 20 1).use_count
      (SharedPtr.copyCtor (copies (SharedPtr.ctor SState.init 20) 2147483646) 0) =
      -2147483648 :=
  overflow_step (copies (SharedPtr.ctor SState.init 20) 2147483646) copies_max.1 copies_max.2.1
    copies_max.2.2.1 copies_max.2.2.2.2.1 copies_max.2.2.2.2.2

/-- C1, amended: in every state reachable by the `SharedPtr` operations in which no copy
increments a counter that holds `INT_MAX`, every allocated counter that has not been freed holds
the number of live owners whose `refCount` is its address; hence a live owner with a counter refers
to an unfreed counter, and its `use_count()` is the number of live members of its group, which is at
least 1 and at most `INT_MAX`. -/
theorem sharedPtr_count_invariant (w : SState) (h : SReachable w) :
    (∀ c, 1 ≤ c → c ≤ w.allocs → Free.cnt c ∉ w.freed → w.ints c = (w.refs c : Int)) ∧
    (∀ i s, w.live i s → s.refCount ≠ 0 →
      Free.cnt s.refCount ∉ w.freed ∧ s.use_count w = (w.refs s.refCount : Int) ∧
      1 ≤ s.use_count w ∧ s.use_count w ≤ 2147483647) := by
  have hw := SReachable_inv w h
  refine ⟨hw.1, fun i s hs h0 => ?_⟩
  have hp := SState_refs_pos w i s hs
  have h3 := SState_inv_of_refs_pos w hw s.refCount (by omega) hp
  have hu : s.use_count w = w.ints s.refCount := by simp [SharedPtr.use_count, h0]
  refine ⟨h3.2.1, by rw [hu]; exact h3.2.2, ?_, ?_⟩
  · rw [hu, h3.2.2]
    exact_mod_cast hp
  · rw [hu]
    exact SReachable_le_max w h _

/-- C1 amended, in the state of `main` after `sp2 = sp1`: the counter at address 1 has two live
owners, and the invariant gives `use_count() = 2` for `sp1`. -/
theorem sharedPtr_count_invariant_witness :
    (SharedPtr.copyCtor (SharedPtr.ctor SState.init 20) 0).refs 1 = 2 ∧
    (SharedPtr.mk 20 1).use_count (SharedPtr.copyCtor (SharedPtr.ctor SState.init 20) 0) =
      ((SharedPtr.copyCtor (SharedPtr.ctor SState.init 20) 0).refs 1 : Int) :=
  ⟨by decide,
    ((sharedPtr_count_invariant _ reach_two).2 0 ⟨20, 1⟩ (by decide) (by decide)).2.1⟩

/-- C5: assigning an owner to itself changes nothing: `UniquePtr` move assignment, `SharedPtr` copy
assignment and `SharedPtr` move assignment with `this == &other` return the state as it was
(objects, counters and frees). -/
theorem self_assignment_noop (u : UState) (s : SState) (i : Nat) :
    UniquePtr.moveAssign u i i = u ∧ SharedPtr.copyAssign s i i = s ∧
    SharedPtr.moveAssign s i i = s := by
  refine ⟨?_, ?_, ?_⟩
  · simp [UniquePtr.moveAssign]
  · simp [SharedPtr.copyAssign]
  · simp [SharedPtr.moveAssign]

/-- C6: move-constructing a `UniquePtr` from a live source holding `p` (null or not) yields a new
owner whose `get()` is `p`, leaves the source with `get() == nullptr`, frees nothing, and leaves
every other object as it was. -/
theorem uniquePtr_moveCtor (w : UState) (j p : Nat) (h : w.live j ⟨p⟩) :
    (∃ n, (UniquePtr.moveCtor w j).live w.objs.length n ∧ n.get = p) ∧
    (∃ s, (UniquePtr.moveCtor w j).live j s ∧ s.get = 0) ∧
    (UniquePtr.moveCtor w j).freed = w.freed ∧
    (UniquePtr.moveCtor w j).objs.length = w.objs.length + 1 ∧
    (∀ k, k ≠ j → k < w.objs.length → (UniquePtr.moveCtor w j).objs[k]? = w.objs[k]?) := by
  have hlt := lookup_lt _ _ _ h
  rw [UniquePtr_moveCtor_eq w j _ h]
  refine ⟨⟨⟨p⟩, ?_, rfl⟩, ⟨⟨0⟩, ?_, rfl⟩, rfl, by simp, fun k hk hkl => ?_⟩
  · simp only [UState.live]
    rw [lookup_push, List.length_set]
    exact Or.inr ⟨rfl, rfl⟩
  · simp only [UState.live]
    rw [lookup_push, lookup_set _ _ _ _ _ hlt]
    exact Or.inl (Or.inl ⟨rfl, rfl⟩)
  · simp only []
    rw [List.getElem?_append_left (by simpa using hkl), List.getElem?_set_ne (fun e => hk e.symm)]

/-- C6 in `main`: `up1(new Test(10))` then `up2 = std::move(up1)`. -/
theorem uniquePtr_moveCtor_witness :
    (UniquePtr.moveCtor (UniquePtr.ctor UState.init 10) 0) = ⟨[some ⟨0⟩, some ⟨10⟩], []⟩ ∧
    (UniquePtr.moveCtor (UniquePtr.ctor UState.init 10) 0).freed =
      (UniquePtr.ctor UState.init 10).freed :=
  ⟨by decide, (uniquePtr_moveCtor (UniquePtr.ctor UState.init 10) 0 10 (by decide)).2.2.1⟩

/-- The copy constructor on a reachable state whose counter at address 1 holds `INT_MAX`. -/
theorem overflow_copyCtor (W : SState) (hr : SReachable W) (hl : W.live 0 ⟨20, 1⟩)
    (hi : W.ints 1 = 2147483647) :
    SReachable W ∧ W.live 0 ⟨20, 1⟩ ∧
    (SharedPtr.mk 20 1).use_count W = 2147483647 ∧
    (SharedPtr.mk 20 1).use_count (SharedPtr.copyCtor W 0) = -2147483648 ∧
    (SharedPtr.copyCtor W 0).ints 1 ≠ W.ints 1 + 1 := by
  have hints : (SharedPtr.copyCtor W 0).ints 1 = -2147483648 := by
    rw [SharedPtr_copyCtor_eq W 0 _ hl]
    simp only [ne_eq, one_ne_zero, not_false_eq_true, if_true, setInt]
    exact wrapInt_max _ hi
  refine ⟨hr, hl, ?_, ?_, ?_⟩
  · simp only [SharedPtr.use_count, ne_eq, one_ne_zero, not_false_eq_true, if_true]
    exact hi
  · simp only [SharedPtr.use_count, ne_eq, one_ne_zero, not_false_eq_true, if_true]
    exact hints
  · rw [hints, hi]
    norm_num

/-- C7, refuted as stated: in the reachable state after `sp(new Test(20))` and 2147483646 copies
the counter of the live source in slot 0 holds `INT_MAX`; copy-constructing from it leaves
-2147483648 in the counter, not the old count plus 1. -/
theorem sharedPtr_copyCtor_counterexample :
    SReachable (copies (SharedPtr.ctor SState.init 20) 2147483646) ∧
    (copies (SharedPtr.ctor SState.init 20) 2147483646).live 0 ⟨20, 1⟩ ∧
    (SharedPtr.mk 20 1).use_count (copies (SharedPtr.ctor SState.init 20) 2147483646) =
      2147483647 ∧
    (SharedPtr.mk 20 1).use_count
      (SharedPtr.copyCtor (copies (SharedPtr.ctor SState.init 20) 2147483646) 0) =
      -2147483648 ∧
    (SharedPtr.copyCtor (copies (SharedPtr.ctor SState.init 20) 2147483646) 0).ints 1 ≠
      (copies (SharedPtr.ctor SState.init 20) 2147483646).ints 1 + 1 :=
  overflow_copyCtor (copies (SharedPtr.ctor SState.init 20) 2147483646) copies_max.1
    copies_max.2.1 copies_max.2.2.1

/-- C7, amended: copy-constructing a `SharedPtr` from a live source gives a new owner with the
source's `get()` pointer and the source's counter, leaves the source's fields as they were, frees
nothing and allocates no counter. If the source has a counter, no other counter changes, and if
that counter holds an `int` below `INT_MAX` it is incremented by exactly 1, so source and copy both
report the old `use_count()` plus 1; if the source has none, no counter is modified and
`use_count()` is 0 on both. -/
theorem sharedPtr_copyCtor (w : SState) (j : Nat) (o : SharedPtr) (h : w.live j o) :
    (∃ n, (SharedPtr.copyCtor w j).live w.objs.length n ∧ n.get = o.get ∧
      n.refCount = o.refCount ∧
      n.use_count (SharedPtr.copyCtor w j) = o.use_count (SharedPtr.copyCtor w j)) ∧
    (SharedPtr.copyCtor w j).live j o ∧
    (SharedPtr.copyCtor w j).freed = w.freed ∧
    (SharedPtr.copyCtor w j).allocs = w.allocs ∧
    (o.refCount ≠ 0 → ∀ c, c ≠ o.refCount → (SharedPtr.copyCtor w j).ints c = w.ints c) ∧
    (o.refCount ≠ 0 → -2147483648 ≤ w.ints o.refCount → w.ints o.refCount < 2147483647 →
      (SharedPtr.copyCtor w j).ints o.refCount = w.ints o.refCount + 1 ∧
      o.use_count (SharedPtr.copyCtor w j) = o.use_count w + 1) ∧
    (o.refCount = 0 →
      (SharedPtr.copyCtor w j).ints = w.ints ∧ o.use_count (SharedPtr.copyCtor w j) = 0) := by
  rw [SharedPtr_copyCtor_eq w j o h]
  refine ⟨⟨o, ?_, rfl, rfl, rfl⟩, ?_, rfl, rfl, fun h0 c hc => ?_,
    fun h0 hlo hhi => ⟨?_, ?_⟩, fun h0 => ⟨?_, ?_⟩⟩
  · simp only [SState.live]
    rw [lookup_push]
    exact Or.inr ⟨rfl, rfl⟩
  · simp only [SState.live]
    rw [lookup_push]
    exact Or.inl h
  · simp [h0, setInt, hc]
  · simp only [h0, ne_eq, not_false_eq_true, if_true, setInt]
    exact wrapInt_of_range _ (by omega) (by omega)
  · simp only [SharedPtr.use_count, h0, ne_eq, not_false_eq_true, if_true, setInt]
    exact wrapInt_of_range _ (by omega) (by omega)
  · simp [h0]
  · simp [SharedPtr.use_count, h0]

/-- C7 amended, in `main`: `sp2 = sp1` raises the counter at address 1 from 1 to 2. -/
theorem sharedPtr_copyCtor_witness :
    (SharedPtr.ctor SState.init 20).ints 1 = 1 ∧
    (SharedPtr.copyCtor (SharedPtr.ctor SState.init 20) 0).ints 1 =
      (SharedPtr.ctor SState.init 20).ints 1 + 1 :=
  ⟨by decide,
    ((sharedPtr_copyCtor (SharedPtr.ctor SState.init 20) 0 ⟨20, 1⟩ (by decide)).2.2.2.2.2.1
      (by decide) (by decide) (by decide)).1⟩

/-- The copy assignment to a new empty owner from the owner in slot 0 of a reachable state whose
counter at address 1 holds `INT_MAX`. -/
theorem overflow_copyAssign (W : SState) (hr : SReachable W) (hl : W.live 0 ⟨20, 1⟩)
    (hi : W.ints 1 = 2147483647) (hlen : W.objs.length = 2147483647) :
    SReachable (SharedPtr.ctor W 0) ∧
    (SharedPtr.ctor W 0).live 2147483647 ⟨0, 0⟩ ∧
    (SharedPtr.ctor W 0).live 0 ⟨20, 1⟩ ∧
    ((SharedPtr.mk 0 0).release (SharedPtr.ctor W 0)).ints 1 = 2147483647 ∧
    (SharedPtr.copyAssign (SharedPtr.ctor W 0) 2147483647 0).ints 1 = -2147483648 ∧
    (SharedPtr.copyAssign (SharedPtr.ctor W 0) 2147483647 0).ints 1 ≠
      ((SharedPtr.mk 0 0).release (SharedPtr.ctor W 0)).ints 1 + 1 := by
  have hd : (SharedPtr.ctor W 0).live 2147483647 ⟨0, 0⟩ := by
    rw [SharedPtr_ctor_null]
    simp only [SState.live]
    rw [lookup_push]
    exact Or.inr ⟨hlen.symm, rfl⟩
  have ho : (SharedPtr.ctor W 0).live 0 ⟨20, 1⟩ := by
    rw [SharedPtr_ctor_null]
    simp only [SState.live]
    rw [lookup_push]
    exact Or.inl hl
  have hrel : (SharedPtr.mk 0 0).release (SharedPtr.ctor W 0) = SharedPtr.ctor W 0 := by
    simp [SharedPtr.release]
  have hi0 : (SharedPtr.ctor W 0).ints 1 = 2147483647 := by
    rw [SharedPtr_ctor_null]
    exact hi
  have hne : (2147483647 : Nat) ≠ 0 := by norm_num
  have hints : (SharedPtr.copyAssign (SharedPtr.ctor W 0) 2147483647 0).ints 1 =
      -2147483648 := by
    rw [SharedPtr_copyAssign_eq _ 2147483647 0 ⟨0, 0⟩ ⟨20, 1⟩ hne hd ho, hrel]
    simp only [ne_eq, one_ne_zero, not_false_eq_true, if_true, setInt]
    exact wrapInt_max _ hi0
  refine ⟨SReachable.ctor W 0 hr (Or.inl rfl), hd, ho, ?_, hints, ?_⟩
  · rw [hrel]; exact hi0
  · rw [hints, hrel, hi0]
    norm_num

/-- C9, refuted as stated: in the reachable state after `sp(new Test(20))`, 2147483646 copies of
it and the construction of an empty owner `e` (slot 2147483647), the counter of `sp` holds
`INT_MAX` after the release step of `e`; the assignment `e = sp` leaves -2147483648 in it, not that
value plus 1. -/
theorem sharedPtr_copyAssign_counterexample :
    SReachable (SharedPtr.ctor (copies (SharedPtr.ctor SState.init 20) 2147483646) 0) ∧
    (SharedPtr.ctor (copies (SharedPtr.ctor SState.init 20) 2147483646) 0).live 2147483647
      ⟨0, 0⟩ ∧
    (SharedPtr.ctor (copies (SharedPtr.ctor SState.init 20) 2147483646) 0).live 0 ⟨20, 1⟩ ∧
    ((SharedPtr.mk 0 0).release
      (SharedPtr.ctor (copies (SharedPtr.ctor SState.init 20) 2147483646) 0)).ints 1 =
      2147483647 ∧
    (SharedPtr.copyAssign (SharedPtr.ctor (copies (SharedPtr.ctor SState.init 20) 2147483646) 0)
      2147483647 0).ints 1 = -2147483648 ∧
    (SharedPtr.copyAssign (SharedPtr.ctor (copies (SharedPtr.ctor SState.init 20) 2147483646) 0)
      2147483647 0).ints 1 ≠
      ((SharedPtr.mk 0 0).release
        (SharedPtr.ctor (copies (SharedPtr.ctor SState.init 20) 2147483646) 0)).ints 1 + 1 :=
  overflow_copyAssign (copies (SharedPtr.ctor SState.init 20) 2147483646) copies_max.1
    copies_max.2.1 copies_max.2.2.1 copies_max.2.2.2.1

/-- C9, amended: copy-assigning to the live object in slot `i` from a different live object in
slot `j` first performs the release step of the destination (the frees are exactly those of that
step: the old value and the old counter if and only if the old count reaches 0), then gives the
destination the source's pointer and counter, then, if the source has a counter, changes no other
counter and increments that counter by 1 provided it holds an `int` below `INT_MAX`; a source
without a counter leaves the destination without one, with `use_count() == 0`. The source's fields
are unchanged. -/
theorem sharedPtr_copyAssign (w : SState) (i j : Nat) (d o : SharedPtr) (hij : i ≠ j)
    (hi : w.live i d) (hj : w.live j o) :
    (∃ n, (SharedPtr.copyAssign w i j).live i n ∧ n.get = o.get ∧ n.refCount = o.refCount) ∧
    (SharedPtr.copyAssign w i j).live j o ∧
    (SharedPtr.copyAssign w i j).freed = (d.release w).freed ∧
    (SharedPtr.copyAssign w i j).freed =
      (if d.refCount ≠ 0 ∧ w.ints d.refCount - 1 = 0 then
        deleteVal d.ptr w.freed ++ [Free.cnt d.refCount]
      else w.freed) ∧
    (SharedPtr.copyAssign w i j).allocs = w.allocs ∧
    (o.refCount ≠ 0 →
      ∀ c, c ≠ o.refCount → (SharedPtr.copyAssign w i j).ints c = (d.release w).ints c) ∧
    (o.refCount ≠ 0 → -2147483648 ≤ (d.release w).ints o.refCount →
      (d.release w).ints o.refCount < 2147483647 →
      (SharedPtr.copyAssign w i j).ints o.refCount = (d.release w).ints o.refCount + 1) ∧
    (o.refCount = 0 →
      (SharedPtr.copyAssign w i j).ints = (d.release w).ints ∧
      o.use_count (SharedPtr.copyAssign w i j) = 0) := by
  have hlt := lookup_lt _ _ _ hi
  rw [SharedPtr_copyAssign_eq w i j d o hij hi hj]
  refine ⟨⟨o, ?_, rfl, rfl⟩, ?_, rfl, SharedPtr_release_freed d w, rfl,
    fun h0 c hc => ?_, fun h0 hlo hhi => ?_, fun h0 => ⟨?_, ?_⟩⟩
  · simp only [SState.live]
    rw [lookup_set _ _ _ _ _ hlt]
    exact Or.inl ⟨rfl, rfl⟩
  · simp only [SState.live]
    rw [List.getElem?_set_ne hij]
    exact hj
  · simp [h0, setInt, hc]
  · simp only [h0, ne_eq, not_false_eq_true, if_true, setInt]
    exact wrapInt_of_range _ (by omega) (by omega)
  · simp [h0]
  · simp [SharedPtr.use_count, h0]

/-- C9 amended, on two owners of distinct values 20 and 21: assigning the second to the first frees the
value 20 and its counter, and raises the counter of 21 from 1 to 2. -/
theorem sharedPtr_copyAssign_witness :
    (SharedPtr.copyAssign (SharedPtr.ctor (SharedPtr.ctor SState.init 20) 21) 0 1).ints 2 = 2 ∧
    (SharedPtr.copyAssign (SharedPtr.ctor (SharedPtr.ctor SState.init 20) 21) 0 1).freed =
      ((SharedPtr.mk 20 1).release (SharedPtr.ctor (SharedPtr.ctor SState.init 20) 21)).freed ∧
    ((SharedPtr.mk 20 1).release (SharedPtr.ctor (SharedPtr.ctor SState.init 20) 21)).freed =
      [Free.obj 20, Free.cnt 1] :=
  ⟨by decide,
    (sharedPtr_copyAssign (SharedPtr.ctor (SharedPtr.ctor SState.init 20) 21) 0 1 ⟨20, 1⟩
      ⟨21, 2⟩ (by decide) (by decide) (by decide)).2.2.1,
    by decide⟩

/-- The scenario of `main` on `SharedPtr`: the value and the counter are freed once each, the
value first, and only by the last of the three destructors that holds a counter. -/
theorem mainShared_freed :
    mainShared.freed = [Free.obj 20, Free.cnt 1] ∧
    (SharedPtr.dtor (SharedPtr.moveCtor (SharedPtr.copyCtor (SharedPtr.ctor SState.init 20) 0) 0)
      2).freed = [] := by
  decide

/-! ## Further lemmas on UniquePtr -/

theorem set_lookup_self {α : Type} (l : List α) (i : Nat) (a : α) (h : l[i]? = some a) :
    l.set i a = l := by
  induction l generalizing i with
  | nil => rfl
  | cons x l ih =>
    cases i with
    | zero =>
      simp only [List.getElem?_cons_zero, Option.some.injEq] at h
      subst h
      rfl
    | succ i =>
      simp only [List.getElem?_cons_succ] at h
      simp only [List.set_cons_succ, ih i h]

theorem deleteObj_null (f : List Nat) : deleteObj 0 f = f := by
  simp [deleteObj]

theorem deleteObj_nonnull (p : Nat) (f : List Nat) (hp : p ≠ 0) : deleteObj p f = f ++ [p] := by
  simp [deleteObj, hp]

theorem live_set_same (l : List (Option UniquePtr)) (f : List Nat) (i : Nat) (x : UniquePtr)
    (hi : i < l.length) : (UState.mk (l.set i (some x)) f).live i x := by
  simp only [UState.live]
  rw [lookup_set _ _ _ _ _ hi]
  exact Or.inl ⟨rfl, rfl⟩

/-! ## Further claims on UniquePtr -/

/-- C12: move-assigning to the live `UniquePtr` in slot `i` from a different live object in slot
`j` frees the destination's former allocation if it was not null and frees nothing else, leaves the
destination holding the source's former pointer and the source with `get() == nullptr`; every other
object is as it was. -/
theorem uniquePtr_moveAssign (w : UState) (i j : Nat) (d o : UniquePtr) (hij : i ≠ j)
    (hi : w.live i d) (hj : w.live j o) :
    (∃ n, (UniquePtr.moveAssign w i j).live i n ∧ n.get = o.get) ∧
    (∃ s, (UniquePtr.moveAssign w i j).live j s ∧ s.get = 0) ∧
    (d.get ≠ 0 → (UniquePtr.moveAssign w i j).freed = w.freed ++ [d.get]) ∧
    (d.get = 0 → (UniquePtr.moveAssign w i j).freed = w.freed) ∧
    (∀ k, k ≠ i → k ≠ j → (UniquePtr.moveAssign w i j).objs[k]? = w.objs[k]?) := by
  have hli := lookup_lt _ _ _ hi
  have hlj := lookup_lt _ _ _ hj
  have hlj2 : j < (w.objs.set i (some (UniquePtr.mk o.ptr))).length := by
    rw [List.length_set]; exact hlj
  rw [UniquePtr_moveAssign_eq w i j d o hij hi hj]
  refine ⟨⟨⟨o.ptr⟩, ?_, rfl⟩, ⟨⟨0⟩, ?_, rfl⟩, fun h => deleteObj_nonnull _ _ h,
    fun h => ?_, fun k hki hkj => ?_⟩
  · simp only [UState.live]
    rw [lookup_set _ _ _ _ _ hlj2, lookup_set _ _ _ _ _ hli]
    exact Or.inr ⟨hij, Or.inl ⟨rfl, rfl⟩⟩
  · exact live_set_same _ _ j ⟨0⟩ hlj2
  · have h0 : d.ptr = 0 := h
    simp only [h0, deleteObj_null]
  · simp only []
    rw [List.getElem?_set_ne (fun e => hkj e.symm), List.getElem?_set_ne (fun e => hki e.symm)]

/-- C12 on two owners of the allocations 10 and 11: `up1 = std::move(up2)` frees 10 only, leaves
`up1` holding 11 and `up2` empty. -/
theorem uniquePtr_moveAssign_witness :
    UniquePtr.moveAssign (UniquePtr.ctor (UniquePtr.ctor UState.init 10) 11) 0 1 =
      ⟨[some ⟨11⟩, some ⟨0⟩], [10]⟩ ∧
    (UniquePtr.moveAssign (UniquePtr.ctor (UniquePtr.ctor UState.init 10) 11) 0 1).freed =
      (UniquePtr.ctor (UniquePtr.ctor UState.init 10) 11).freed ++ [(UniquePtr.mk 10).get] :=
  ⟨by decide,
    (uniquePtr_moveAssign (UniquePtr.ctor (UniquePtr.ctor UState.init 10) 11) 0 1 ⟨10⟩ ⟨11⟩
      (by decide) (by decide) (by decide)).2.2.1 (by decide)⟩

/-- C14: `reset(p)` on a live owner, for every `p` (null or not), frees the formerly held
allocation if it was not null and frees nothing else, leaves `get() == p` and every other object as
it was; `reset()` with the default argument `nullptr` leaves the owner empty. -/
theorem uniquePtr_reset (w : UState) (i : Nat) (u : UniquePtr) (p : Nat) (h : w.live i u) :
    (∃ n, (UniquePtr.reset w i p).live i n ∧ n.get = p) ∧
    (u.get ≠ 0 → (UniquePtr.reset w i p).freed = w.freed ++ [u.get]) ∧
    (u.get = 0 → (UniquePtr.reset w i p).freed = w.freed) ∧
    (∀ k, k ≠ i → (UniquePtr.reset w i p).objs[k]? = w.objs[k]?) ∧
    (∃ n, (UniquePtr.reset w i 0).live i n ∧ n.get = 0) := by
  have hlt := lookup_lt _ _ _ h
  rw [UniquePtr_reset_eq w i u p h, UniquePtr_reset_eq w i u 0 h]
  refine ⟨⟨⟨p⟩, live_set_same _ _ i _ hlt, rfl⟩, fun h1 => deleteObj_nonnull _ _ h1,
    fun h1 => ?_, fun k hk => ?_, ⟨⟨0⟩, live_set_same _ _ i _ hlt, rfl⟩⟩
  · have h0 : u.ptr = 0 := h1
    simp only [h0, deleteObj_null]
  · simp only []
    rw [List.getElem?_set_ne (fun e => hk e.symm)]

/-- C14 on an owner of the allocation 10: `reset(12)` frees 10 and leaves the owner holding 12. -/
theorem uniquePtr_reset_witness :
    UniquePtr.reset (UniquePtr.ctor UState.init 10) 0 12 = ⟨[some ⟨12⟩], [10]⟩ ∧
    (UniquePtr.reset (UniquePtr.ctor UState.init 10) 0 12).freed =
      (UniquePtr.ctor UState.init 10).freed ++ [(UniquePtr.mk 10).get] :=
  ⟨by decide,
    (uniquePtr_reset (UniquePtr.ctor UState.init 10) 0 ⟨10⟩ 12 (by decide)).2.1 (by decide)⟩

/-- C15: `release()` on a live owner returns the pointer `get()` returned before the call, leaves
`get() == nullptr`, frees nothing and leaves every other object as it was; destroying the owner
afterwards frees nothing either. -/
theorem uniquePtr_release (w : UState) (i : Nat) (u : UniquePtr) (h : w.live i u) :
    (UniquePtr.release w i).1 = u.get ∧
    (∃ n, (UniquePtr.release w i).2.live i n ∧ n.get = 0) ∧
    (UniquePtr.release w i).2.freed = w.freed ∧
    (∀ k, k ≠ i → (UniquePtr.release w i).2.objs[k]? = w.objs[k]?) ∧
    (UniquePtr.dtor (UniquePtr.release w i).2 i).freed = w.freed := by
  have hlt := lookup_lt _ _ _ h
  rw [UniquePtr_release_eq w i u h]
  have hl := live_set_same w.objs w.freed i ⟨0⟩ hlt
  refine ⟨rfl, ⟨⟨0⟩, hl, rfl⟩, rfl, fun k hk => ?_, ?_⟩
  · simp only []
    rw [List.getElem?_set_ne (fun e => hk e.symm)]
  · simp only []
    rw [UniquePtr_dtor_eq _ i ⟨0⟩ hl]
    exact deleteObj_null _

/-- C15 on an owner of the allocation 10: `release()` returns 10 and frees nothing, and neither
does the destructor run afterwards. -/
theorem uniquePtr_release_witness :
    (UniquePtr.release (UniquePtr.ctor UState.init 10) 0).1 = (UniquePtr.mk 10).get ∧
    (UniquePtr.dtor (UniquePtr.release (UniquePtr.ctor UState.init 10) 0).2 0).freed = [] :=
  ⟨(uniquePtr_release (UniquePtr.ctor UState.init 10) 0 ⟨10⟩ (by decide)).1, by decide⟩

theorem twoOwners_eq (w : UState) (v : Nat) :
    twoOwners w v = ⟨w.objs ++ [some ⟨0⟩, some ⟨v⟩], w.freed⟩ := by
  have h : (UniquePtr.ctor w v).live w.objs.length ⟨v⟩ := by
    simp only [UState.live, UniquePtr.ctor]
    rw [lookup_push]
    exact Or.inr ⟨rfl, rfl⟩
  unfold twoOwners
  rw [UniquePtr_moveCtor_eq _ _ _ h]
  simp [UniquePtr.ctor]

theorem UniquePtr_dtor_freed (w : UState) (i : Nat) (u : UniquePtr) (h : w.live i u) :
    (UniquePtr.dtor w i).freed = deleteObj u.ptr w.freed := by
  rw [UniquePtr_dtor_eq w i u h]

theorem UniquePtr_dtor_live_ne (w : UState) (i k : Nat) (u x : UniquePtr) (h : w.live i u)
    (hk : k ≠ i) (hx : w.live k x) : (UniquePtr.dtor w i).live k x := by
  rw [UniquePtr_dtor_eq w i u h]
  simp only [UState.live]
  rw [List.getElem?_set_ne (fun e => hk e.symm)]
  exact hx

/-- C13: destroying a live `UniquePtr` frees its allocation when it holds one and frees nothing
when it is empty. Consequently, for every non-null allocation `v` not freed before, after `up1(v)`
and `up2 = std::move(up1)` the first owner is empty and the second holds `v`; destroying `up1`
frees nothing and destroying `up2` frees `v`, in either order, so that after both destructions `v`
has been freed exactly once. -/
theorem uniquePtr_destroy_once (w : UState) (v : Nat) (hv : v ≠ 0) (hf : v ∉ w.freed) :
    (∀ (w1 : UState) (i : Nat) (u : UniquePtr), w1.live i u →
      (u.get ≠ 0 → (UniquePtr.dtor w1 i).freed = w1.freed ++ [u.get]) ∧
      (u.get = 0 → (UniquePtr.dtor w1 i).freed = w1.freed)) ∧
    (twoOwners w v).live w.objs.length ⟨0⟩ ∧
    (twoOwners w v).live (w.objs.length + 1) ⟨v⟩ ∧
    (twoOwners w v).freed = w.freed ∧
    (UniquePtr.dtor (twoOwners w v) w.objs.length).freed = w.freed ∧
    (UniquePtr.dtor (UniquePtr.dtor (twoOwners w v) w.objs.length) (w.objs.length + 1)).freed =
      w.freed ++ [v] ∧
    (UniquePtr.dtor (twoOwners w v) (w.objs.length + 1)).freed = w.freed ++ [v] ∧
    (UniquePtr.dtor (UniquePtr.dtor (twoOwners w v) (w.objs.length + 1)) w.objs.length).freed =
      w.freed ++ [v] ∧
    (w.freed ++ [v]).count v = 1 := by
  have h1 : (twoOwners w v).live w.objs.length ⟨0⟩ := by
    rw [twoOwners_eq]
    simp only [UState.live]
    rw [List.getElem?_append_right (Nat.le_refl _)]
    simp
  have h2 : (twoOwners w v).live (w.objs.length + 1) ⟨v⟩ := by
    rw [twoOwners_eq]
    simp only [UState.live]
    rw [List.getElem?_append_right (Nat.le_succ _)]
    simp
  have hfr : (twoOwners w v).freed = w.freed := by rw [twoOwners_eq]
  have hd1 : (UniquePtr.dtor (twoOwners w v) w.objs.length).freed = w.freed := by
    rw [UniquePtr_dtor_freed _ _ _ h1, deleteObj_null, hfr]
  have hd2 : (UniquePtr.dtor (twoOwners w v) (w.objs.length + 1)).freed = w.freed ++ [v] := by
    rw [UniquePtr_dtor_freed _ _ _ h2, deleteObj_nonnull _ _ hv, hfr]
  refine ⟨fun w1 i u hu => ⟨fun hne => ?_, fun he => ?_⟩, h1, h2, hfr, hd1, ?_, hd2, ?_, ?_⟩
  · rw [UniquePtr_dtor_freed _ _ _ hu]
    exact deleteObj_nonnull _ _ hne
  · have h0 : u.ptr = 0 := he
    rw [UniquePtr_dtor_freed _ _ _ hu, h0, deleteObj_null]
  · have h3 := UniquePtr_dtor_live_ne _ _ _ _ _ h1 (Nat.succ_ne_self _) h2
    rw [UniquePtr_dtor_freed _ _ _ h3, deleteObj_nonnull _ _ hv, hd1]
  · have h3 := UniquePtr_dtor_live_ne _ _ _ _ _ h2 (Nat.succ_ne_self _).symm h1
    rw [UniquePtr_dtor_freed _ _ _ h3, deleteObj_null, hd2]
  · rw [List.count_append, List.count_eq_zero_of_not_mem hf]
    simp

/-- C13 in `main`: `up1(new Test(10))`, `up2 = std::move(up1)`, and at the end of the scope `up2`
is destroyed before `up1`; the allocation 10 is freed once, by the destructor of `up2`. -/
theorem uniquePtr_destroy_once_witness :
    twoOwners UState.init 10 = ⟨[some ⟨0⟩, some ⟨10⟩], []⟩ ∧
    (UniquePtr.dtor (twoOwners UState.init 10) 1).freed = [10] ∧
    (UniquePtr.dtor (UniquePtr.dtor (twoOwners UState.init 10) (UState.init.objs.length + 1))
      UState.init.objs.length).freed = UState.init.freed ++ [10] :=
  ⟨by decide, by decide,
    (uniquePtr_destroy_once UState.init 10 (by decide) (by decide)).2.2.2.2.2.2.2.1⟩

/-- C19: `reset` does not check for the pointer it already holds. For a live owner holding a
non-null `p`, `reset(p)` frees `p` and leaves the owner holding `p`, an allocation that is now in the
log of frees, and destroying the owner afterwards frees `p` a second time. For every `q` other than
the held pointer that was not freed before, the owner holds `q` after `reset(q)` and `q` has not
been freed. -/
theorem uniquePtr_reset_self (w : UState) (i : Nat) (u : UniquePtr) (h : w.live i u)
    (hne : u.get ≠ 0) :
    (UniquePtr.reset w i u.get).freed = w.freed ++ [u.get] ∧
    (∃ n, (UniquePtr.reset w i u.get).live i n ∧ n.get = u.get ∧
      n.get ∈ (UniquePtr.reset w i u.get).freed) ∧
    (UniquePtr.dtor (UniquePtr.reset w i u.get) i).freed = w.freed ++ [u.get, u.get] ∧
    (∀ q, q ≠ u.get → q ∉ w.freed →
      ∃ n, (UniquePtr.reset w i q).live i n ∧ n.get = q ∧
        n.get ∉ (UniquePtr.reset w i q).freed) := by
  have hlt := lookup_lt _ _ _ h
  have hl : ∀ q, (UniquePtr.reset w i q).live i ⟨q⟩ := by
    intro q
    rw [UniquePtr_reset_eq w i u q h]
    exact live_set_same _ _ i _ hlt
  have hfr : ∀ q, (UniquePtr.reset w i q).freed = w.freed ++ [u.get] := by
    intro q
    rw [UniquePtr_reset_eq w i u q h]
    exact deleteObj_nonnull _ _ hne
  refine ⟨hfr _, ⟨⟨u.get⟩, hl _, rfl, ?_⟩, ?_, fun q hq hqf => ⟨⟨q⟩, hl q, rfl, ?_⟩⟩
  · rw [hfr]
    simp [UniquePtr.get]
  · rw [UniquePtr_dtor_freed _ _ _ (hl u.get), hfr]
    have : deleteObj (UniquePtr.mk u.get).ptr (w.freed ++ [u.get]) =
        (w.freed ++ [u.get]) ++ [u.get] := deleteObj_nonnull _ _ hne
    rw [this]
    simp
  · rw [hfr]
    simp only [UniquePtr.get, List.mem_append, List.mem_singleton, not_or]
    exact ⟨hqf, hq⟩

/-- C19 on an owner of the allocation 10: `reset(10)` frees 10 while the owner keeps it, and the
destructor then frees 10 again. -/
theorem uniquePtr_reset_self_witness :
    UniquePtr.reset (UniquePtr.ctor UState.init 10) 0 10 = ⟨[some ⟨10⟩], [10]⟩ ∧
    (UniquePtr.dtor (UniquePtr.reset (UniquePtr.ctor UState.init 10) 0 (UniquePtr.mk 10).get)
      0).freed = (UniquePtr.ctor UState.init 10).freed ++ [(UniquePtr.mk 10).get,
        (UniquePtr.mk 10).get] :=
  ⟨by decide,
    (uniquePtr_reset_self (UniquePtr.ctor UState.init 10) 0 ⟨10⟩ (by decide) (by decide)).2.2.1⟩

/-- C20: for every state and every slot, `u.reset(u.release())` returns the state as it was: the
owner holds the pointer it held before and nothing is freed. -/
theorem uniquePtr_reset_release (w : UState) (i : Nat) :
    UniquePtr.reset (UniquePtr.release w i).2 i (UniquePtr.release w i).1 = w := by
  cases h : w.objs[i]? with
  | none => simp [UniquePtr.release, UniquePtr.reset, h]
  | some x =>
    cases x with
    | none => simp [UniquePtr.release, UniquePtr.reset, h]
    | some u =>
      have hl : w.live i u := h
      have hlt := lookup_lt _ _ _ h
      rw [UniquePtr_release_eq w i u hl]
      have hl0 := live_set_same w.objs w.freed i ⟨0⟩ hlt
      rw [UniquePtr_reset_eq _ i ⟨0⟩ u.ptr hl0]
      simp only [deleteObj_null, List.set_set]
      have : w.objs.set i (some (UniquePtr.mk u.ptr)) = w.objs := set_lookup_self _ _ _ h
      rw [this]

/-! ## Further claims on SharedPtr -/

/-- C16: constructing a `SharedPtr` from a non-null `p` allocates the next counter address with the
value 1 and changes no other cell, so the new owner has `get() == p` and `use_count() == 1`; in a
reachable state that address is referenced by no live owner and has not been freed. Constructing
from `nullptr` allocates nothing and changes no cell; the new owner has no counter,
`get() == nullptr` and `use_count() == 0`. Neither constructor frees anything. The accessors `get`
and `use_count` are functions of the object and the state that return a value and no state. -/
theorem sharedPtr_ctor (w : SState) (p : Nat) :
    (p ≠ 0 →
      (∃ n, (SharedPtr.ctor w p).live w.objs.length n ∧ n.get = p ∧
        n.refCount = w.allocs + 1 ∧ n.use_count (SharedPtr.ctor w p) = 1) ∧
      (SharedPtr.ctor w p).ints (w.allocs + 1) = 1 ∧
      (∀ c, c ≠ w.allocs + 1 → (SharedPtr.ctor w p).ints c = w.ints c) ∧
      (SharedPtr.ctor w p).allocs = w.allocs + 1 ∧
      (SharedPtr.ctor w p).freed = w.freed) ∧
    (SReachable w → w.refs (w.allocs + 1) = 0 ∧ Free.cnt (w.allocs + 1) ∉ w.freed) ∧
    ((∃ n, (SharedPtr.ctor w 0).live w.objs.length n ∧ n.get = 0 ∧ n.refCount = 0 ∧
        n.use_count (SharedPtr.ctor w 0) = 0) ∧
      (SharedPtr.ctor w 0).ints = w.ints ∧
      (SharedPtr.ctor w 0).allocs = w.allocs ∧
      (SharedPtr.ctor w 0).freed = w.freed) := by
  refine ⟨fun hp => ?_, fun hr => ?_, ?_⟩
  · rw [SharedPtr_ctor_eq w p hp]
    refine ⟨⟨⟨p, w.allocs + 1⟩, ?_, rfl, rfl, ?_⟩, ?_, fun c hc => ?_, rfl, rfl⟩
    · simp only [SState.live]
      rw [lookup_push]
      exact Or.inr ⟨rfl, rfl⟩
    · simp [SharedPtr.use_count, setInt]
    · simp [setInt]
    · simp [setInt, hc]
  · have hi := SReachable_inv w hr
    refine ⟨hi.2.1 _ (by omega) (Or.inl (by omega)), fun h => ?_⟩
    have := (hi.2.2 _ h).2
    omega
  · rw [SharedPtr_ctor_null]
    refine ⟨⟨⟨0, 0⟩, ?_, rfl, rfl, rfl⟩, rfl, rfl, rfl⟩
    simp only [SState.live]
    rw [lookup_push]
    exact Or.inr ⟨rfl, rfl⟩

/-- C16 in `main`: `sp1(new Test(20))` in the initial state puts 1 into the counter at address
1. -/
theorem sharedPtr_ctor_witness :
    (SharedPtr.ctor SState.init 20).objs = [some ⟨20, 1⟩] ∧
    (SharedPtr.ctor SState.init 20).ints (SState.init.allocs + 1) = 1 :=
  ⟨by decide, ((sharedPtr_ctor SState.init 20).1 (by decide)).2.1⟩

